import Mathlib

/-!
Verification of the OpenMLS core-group engine (staged-commit pipeline,
validation engine, key-material bookkeeping) against its specification.

The definitions below are a shallow embedding of the Rust sources under
`src/openmls/src/group/core_group/` (`mod.rs`, `validation.rs`,
`staged_commit.rs`).  Byte strings are `List Nat`; fallible Rust functions
become `Except`; collaborators that live outside the embedded files
(the crypto provider, `TreeSync` diff operations, the proposal store,
the key schedule) are either abstract function parameters gathered in
environment structures (`EnvPre`, `EnvPost`) or, where the specification
pins down their behaviour, concrete definitions marked as modelled from
the spec.
-/

/-- Byte strings (Rust `Vec<u8>` / `&[u8]`). -/
abbrev Bytes := List Nat

/-- A credential: identity bytes plus signature public key
(`credential().identity()`, `credential().signature_key()`). -/
structure Credential where
  identity : Bytes
  signatureKey : Bytes
  deriving DecidableEq, Repr

/-- Modelled from the spec: `RequiredCapabilities` carries the extension
types and proposal types a member must support (spec §3, §4.C ValSem106). -/
structure RequiredCapabilities where
  extensionTypes : List Nat
  proposalTypes : List Nat
  deriving DecidableEq, Repr

/-- Capability advertisement of a leaf / key package
(supported versions, ciphersuites, extension types, proposal types,
credential types; spec §3 LeafNode). -/
structure Capabilities where
  versions : List Nat
  ciphersuites : List Nat
  extensions : List Nat
  proposals : List Nat
  credentials : List Nat
  deriving DecidableEq, Repr

/-- Modelled from the spec: `Capabilities::supports_required_capabilities`
checks that every required extension type and proposal type is advertised
(spec §4.C ValSem106: "the KeyPackage's capabilities must be a superset"). -/
def Capabilities.supportsRequiredCapabilities (c : Capabilities)
    (rc : RequiredCapabilities) : Bool :=
  rc.extensionTypes.all (fun t => c.extensions.contains t) &&
  rc.proposalTypes.all (fun t => c.proposals.contains t)

/-- Extension type identifiers (16-bit on the wire; spec §6). -/
inductive ExtensionType where
  | requiredCapabilities
  | ratchetTree
  | externalPub
  | other (n : Nat)
  deriving DecidableEq, Repr

/-- Group-context / group-info extensions.  Only the
`RequiredCapabilities` payload is inspected by the embedded code. -/
inductive Extension where
  | requiredCapabilities (rc : RequiredCapabilities)
  | other (t : ExtensionType)
  deriving DecidableEq, Repr

/-- `Extension::extension_type`. -/
def Extension.extensionType : Extension → ExtensionType
  | .requiredCapabilities _ => .requiredCapabilities
  | .other t => t

/-- A ratchet-tree leaf node: credential plus HPKE encryption public key
(`leaf.credential()`, `leaf.public_key()` / `encryption_key()`). -/
structure LeafNode where
  credential : Credential
  encryptionKey : Bytes
  deriving DecidableEq, Repr

/-- `LeafNode::public_key` (the HPKE encryption key of the leaf). -/
def LeafNode.publicKey (l : LeafNode) : Bytes := l.encryptionKey

/-- A key package: credential, HPKE init key, ciphersuite, protocol
version and the leaf node's capabilities
(`key_package().credential()`, `.hpke_init_key()`, `.ciphersuite()`,
`.protocol_version()`, `.leaf_node().capabilities()`). -/
structure KeyPackage where
  credential : Credential
  hpkeInitKey : Bytes
  ciphersuite : Nat
  protocolVersion : Nat
  capabilities : Capabilities
  deriving DecidableEq, Repr

/-- The leaf node described by a key package (identity and HPKE init key). -/
def KeyPackage.leafNode (kp : KeyPackage) : LeafNode :=
  { credential := kp.credential, encryptionKey := kp.hpkeInitKey }

/-- `KeyPackageBundle` (public part only; the private keys are never
inspected by the embedded code, only equality of the public part is). -/
structure KeyPackageBundle where
  keyPackage : KeyPackage
  deriving DecidableEq, Repr

/-- A member entry as produced by `TreeSync::full_leave_members`
(`Member { index, identity, encryption_key, signature_key }`). -/
structure Member where
  index : Nat
  identity : Bytes
  encryptionKey : Bytes
  signatureKey : Bytes
  deriving DecidableEq, Repr

/-- The public ratchet-tree state used by the embedded code: the leaf
slots in order (Blank = `none`), plus the index of the own leaf
(spec §3 RatchetTree; the parent slots are not inspected by any
embedded function). -/
structure TreeSync where
  leaves : List (Option LeafNode)
  ownLeafIndex : Nat
  deriving DecidableEq, Repr

/-- `TreeSync::leaf(index)`: `Ok(None)` for a blank leaf in range,
`Ok(Some(_))` for an occupied leaf, error when the index is out of the
tree. -/
def TreeSync.leaf (t : TreeSync) (i : Nat) : Except Unit (Option LeafNode) :=
  match t.leaves.get? i with
  | some o => .ok o
  | none => .error ()

/-- The `Member` for an occupied leaf at a given index. -/
def mkMember (i : Nat) (l : LeafNode) : Member :=
  { index := i, identity := l.credential.identity,
    encryptionKey := l.encryptionKey,
    signatureKey := l.credential.signatureKey }

/-- Walk the leaf slots starting at index `k`, collecting the members of
the occupied leaves (helper for `TreeSync.fullLeaveMembers`). -/
def membersFrom : Nat → List (Option LeafNode) → List Member
  | _, [] => []
  | k, none :: rest => membersFrom (k + 1) rest
  | k, some l :: rest => mkMember k l :: membersFrom (k + 1) rest

/-- `TreeSync::full_leave_members`: the members of all occupied leaves,
in leaf-index order. -/
def TreeSync.fullLeaveMembers (t : TreeSync) : List Member :=
  membersFrom 0 t.leaves

/-- Walk the leaf slots starting at index `k`, collecting the indices of
the occupied leaves (helper for `TreeSync.fullLeaves`). -/
def fullLeavesFrom : Nat → List (Option LeafNode) → List Nat
  | _, [] => []
  | k, none :: rest => fullLeavesFrom (k + 1) rest
  | k, some _ :: rest => k :: fullLeavesFrom (k + 1) rest

/-- `TreeSync::full_leaves`: the indices of all occupied leaves. -/
def TreeSync.fullLeaves (t : TreeSync) : List Nat :=
  fullLeavesFrom 0 t.leaves

/-- `TreeSyncDiff::leaf_count` (the diff is modelled as a tree value). -/
def TreeSync.leafCount (t : TreeSync) : Nat := t.leaves.length

/-- The sender of a framed MLS message (`enum Sender`). -/
inductive Sender where
  | member (leafIndex : Nat)
  | preconfigured (tag : Bytes)
  | newMember
  deriving DecidableEq, Repr

/-- `Sender::is_member`. -/
def Sender.isMember : Sender → Bool
  | .member _ => true
  | _ => false

/-- `AddProposal { key_package }`. -/
structure AddProposal where
  keyPackage : KeyPackage
  deriving DecidableEq, Repr

/-- `UpdateProposal { key_package }` (in the version of `validation.rs`
at hand the update's leaf data is reached through `leaf_node()`, which
corresponds to `keyPackage.leafNode` here). -/
structure UpdateProposal where
  keyPackage : KeyPackage
  deriving DecidableEq, Repr

/-- The leaf node carried by an update proposal
(`update_proposal().leaf_node()`). -/
def UpdateProposal.leafNode (u : UpdateProposal) : LeafNode :=
  u.keyPackage.leafNode

/-- `RemoveProposal { removed }` (a leaf index in this version). -/
structure RemoveProposal where
  removed : Nat
  deriving DecidableEq, Repr

/-- `enum Proposal` (spec §3). -/
inductive Proposal where
  | add (p : AddProposal)
  | update (p : UpdateProposal)
  | remove (p : RemoveProposal)
  | preSharedKey (pskId : Nat)
  | reInit
  | externalInit (kemOutput : Bytes)
  | groupContextExtensions (exts : List Extension)
  deriving DecidableEq, Repr

/-- `enum ProposalType`. -/
inductive ProposalType where
  | add
  | update
  | remove
  | preSharedKey
  | reInit
  | externalInit
  | groupContextExtensions
  deriving DecidableEq, Repr

/-- `Proposal::proposal_type`. -/
def Proposal.proposalType : Proposal → ProposalType
  | .add _ => .add
  | .update _ => .update
  | .remove _ => .remove
  | .preSharedKey _ => .preSharedKey
  | .reInit => .reInit
  | .externalInit _ => .externalInit
  | .groupContextExtensions _ => .groupContextExtensions

/-- `enum ProposalOrRefType`: committed inline (`Proposal`) or by
hash reference (`Reference`). -/
inductive ProposalOrRefType where
  | proposal
  | reference
  deriving DecidableEq, Repr

/-- A queue entry `(proposal, sender, reference_type)` (spec §4.B;
`QueuedProposal` / `StagedProposal`). -/
structure QueuedProposal where
  proposal : Proposal
  sender : Sender
  proposalOrRefType : ProposalOrRefType
  deriving DecidableEq, Repr

/-- The ordered proposal queue built from a Commit
(`ProposalQueue` / `StagedProposalQueue`; both versions expose the same
ordered-sequence interface, spec §4.B). -/
abbrev ProposalQueue := List QueuedProposal

/-- `ProposalQueue::add_proposals`, projected to the key packages
(the only part of `StagedAddProposal` the validators read). -/
def ProposalQueue.addKeyPackages (q : ProposalQueue) : List KeyPackage :=
  q.filterMap (fun p => match p.proposal with
    | .add a => some a.keyPackage
    | _ => none)

/-- `ProposalQueue::update_proposals`: the update proposals together
with their senders, in queue order (`StagedUpdateProposal`). -/
def ProposalQueue.updateProposals (q : ProposalQueue) :
    List (UpdateProposal × Sender) :=
  q.filterMap (fun p => match p.proposal with
    | .update u => some (u, p.sender)
    | _ => none)

/-- `ProposalQueue::remove_proposals`, projected to the removed indices. -/
def ProposalQueue.removeProposals (q : ProposalQueue) : List Nat :=
  q.filterMap (fun p => match p.proposal with
    | .remove r => some r.removed
    | _ => none)

/-- `ProposalQueue::filtered_by_type`. -/
def ProposalQueue.filteredByKind (q : ProposalQueue) (t : ProposalType) :
    ProposalQueue :=
  q.filter (fun p => p.proposal.proposalType = t)

/-- `GroupContext` (spec §3). -/
structure GroupContext where
  groupId : Bytes
  epoch : Nat
  treeHash : Bytes
  confirmedTranscriptHash : Bytes
  extensions : List Extension
  deriving DecidableEq, Repr

/-- `GroupEpochSecrets` (spec §3); `init_secret()` is an `Option` in the
embedded `staged_commit.rs`. -/
structure GroupEpochSecrets where
  initSecret : Option Bytes
  exporterSecret : Bytes
  externalSecret : Bytes
  epochAuthenticator : Bytes
  resumptionPsk : Bytes
  deriving DecidableEq, Repr

/-- The epoch secrets produced by `KeySchedule::epoch_secrets`; only the
confirmation key is inspected by the embedded code, the rest is carried
opaquely into `split_secrets`. -/
structure EpochSecrets where
  confirmationKey : Bytes
  rest : Bytes
  deriving DecidableEq, Repr

/-- `MessageSecrets` of one epoch (opaque to the embedded code). -/
structure MessageSecrets where
  data : Bytes
  deriving DecidableEq, Repr

/-- Modelled from the spec: the `MessageSecretsStore` (spec §4.G and the
doc comment in `mod.rs`): a bounded list of past epochs' message secrets
plus leaf snapshots, and the current epoch's message secrets. -/
structure MessageSecretsStore where
  maxEpochs : Nat
  pastEpochs : List (Nat × MessageSecrets × List Member)
  current : MessageSecrets
  deriving DecidableEq, Repr

/-- Modelled from the spec: `MessageSecretsStore::secrets_for_epoch(e)`
returns the stored entry for epoch `e`, `None` when `e` is outside the
retained window (spec §4.G). -/
def MessageSecretsStore.secretsForEpoch (s : MessageSecretsStore)
    (e : Nat) : Option MessageSecrets :=
  (s.pastEpochs.find? (fun entry => entry.1 = e)).map (fun entry => entry.2.1)

/-- `MessageSecretsStore::message_secrets`: the current epoch's secrets. -/
def MessageSecretsStore.messageSecrets (s : MessageSecretsStore) :
    MessageSecrets :=
  s.current

/-- `StagedTreeSyncDiff` (finalized diff; opaque to the embedded code,
consumed only by the abstract `merge_diff`). -/
structure StagedTreeSyncDiff where
  diff : TreeSync
  deriving DecidableEq, Repr

/-- `StagedCommitState`: the provisional next-epoch state (spec §3). -/
structure StagedCommitState where
  groupContext : GroupContext
  groupEpochSecrets : GroupEpochSecrets
  messageSecrets : MessageSecrets
  interimTranscriptHash : Bytes
  stagedDiff : StagedTreeSyncDiff
  deriving DecidableEq, Repr

/-- `StagedCommit`: proposal queue plus optional provisional state
(absent on self-removal). -/
structure StagedCommit where
  stagedProposalQueue : ProposalQueue
  state : Option StagedCommitState
  deriving DecidableEq, Repr

/-- `StagedCommit::self_removed`. -/
def StagedCommit.selfRemoved (sc : StagedCommit) : Bool :=
  sc.state.isNone

/-- `CoreGroup` (fields per `mod.rs`). -/
structure CoreGroup where
  ciphersuite : Nat
  groupContext : GroupContext
  groupEpochSecrets : GroupEpochSecrets
  tree : TreeSync
  interimTranscriptHash : Bytes
  useRatchetTreeExtension : Bool
  mlsVersion : Nat
  messageSecretsStore : MessageSecretsStore
  deriving DecidableEq, Repr

/-- `ContentType` of a framed message. -/
inductive ContentType where
  | application
  | proposal
  | commit
  deriving DecidableEq, Repr

/-- The part of an incoming wire message that `validate_framing`
inspects (`MlsMessageIn`: `group_id()`, `epoch()`, `content_type()`). -/
structure MlsMessageIn where
  groupId : Bytes
  epoch : Nat
  contentType : ContentType
  deriving DecidableEq, Repr

/-- Validation errors of the framing layer (`ValidationError`). -/
inductive ValidationError where
  | wrongGroupId
  | wrongEpoch
  | unknownMember
  | unencryptedApplicationMessage
  | nonMemberApplicationMessage
  | missingConfirmationTag
  deriving DecidableEq, Repr

/-- Proposal-validation errors (`ProposalValidationError`). -/
inductive ProposalValidationError where
  | libraryError
  | duplicateIdentityAddProposal
  | duplicateSignatureKeyAddProposal
  | duplicatePublicKeyAddProposal
  | insufficientCapabilities
  | existingIdentityAddProposal
  | existingSignatureKeyAddProposal
  | existingPublicKeyAddProposal
  | duplicateMemberRemoval
  | unknownMemberRemoval
  | updateFromNonMember
  | committerIncludedOwnUpdate
  | updateProposalIdentityMismatch
  | existingPublicKeyUpdateProposal
  | unknownMember
  deriving DecidableEq, Repr

/-- External-commit validation errors (`ExternalCommitValidationError`). -/
inductive ExternalCommitValidationError where
  | noExternalInitProposals
  | multipleExternalInitProposals
  | invalidInlineProposals
  | invalidRemoveProposal
  | unknownMemberRemoval
  deriving DecidableEq, Repr

/-- `StageCommitError`. -/
inductive StageCommitError where
  | epochMismatch
  | wrongPlaintextContentType
  | confirmationTagMissing
  | missingProposal
  | ownKeyNotFound
  | missingOwnKeyPackage
  | pathKeyPackageVerificationFailure
  | requiredPathNotFound
  | initSecretNotFound
  | confirmationTagMismatch
  deriving DecidableEq, Repr

/-- `ExporterError`. -/
inductive ExporterError where
  | keyLengthTooLong
  | libraryError
  deriving DecidableEq, Repr

/-- `SecretTreeError` (the kinds reachable from the embedded code). -/
inductive SecretTreeError where
  | tooDistantInThePast
  | tooDistantInTheFuture
  deriving DecidableEq, Repr

/-- `CoreGroupError`: the top-level error sum into which the layer
errors convert (`From` impls); error kinds of collaborators outside the
embedded files are collapsed into one constructor per collaborator. -/
inductive CoreGroupError where
  | stageCommit (e : StageCommitError)
  | proposalValidation (e : ProposalValidationError)
  | libraryError
  | treeSyncError
  | cryptoError
  | codecError
  | keyScheduleError
  | pskError
  deriving DecidableEq, Repr

/-! ## Framing validation (`validation.rs::validate_framing`) -/

/-- `CoreGroup::validate_framing`: ValSem002 (group id) and ValSem003
(epoch bounds, application messages may be older). -/
def CoreGroup.validateFraming (g : CoreGroup) (m : MlsMessageIn) :
    Except ValidationError Unit :=
  if m.groupId ≠ g.groupContext.groupId then
    .error .wrongGroupId
  else
    match m.contentType with
    | .application =>
        if m.epoch > g.groupContext.epoch then .error .wrongEpoch else .ok ()
    | _ =>
        if m.epoch ≠ g.groupContext.epoch then .error .wrongEpoch else .ok ()

/-! ## Exporter (`mod.rs::export_secret`) -/

/-- The collaborator call
`exporter_secret.derive_exported_secret(ciphersuite, backend, label,
context, key_length)`, abstract (the key-derivation code is outside the
embedded files). -/
structure ExporterBackend where
  deriveExportedSecret : Nat → Bytes → Bytes → Bytes → Nat → Except Unit Bytes

/-- `CoreGroup::export_secret`: lengths above `u16::MAX` are rejected
with `KeyLengthTooLong`; a failure of the derivation surfaces as a
library error. -/
def CoreGroup.exportSecret (be : ExporterBackend) (g : CoreGroup)
    (label : Bytes) (context : Bytes) (keyLength : Nat) :
    Except ExporterError Bytes :=
  if keyLength > 65535 then
    .error .keyLengthTooLong
  else
    match be.deriveExportedSecret g.ciphersuite
        g.groupEpochSecrets.exporterSecret label context keyLength with
    | .ok okm => .ok okm
    | .error _ => .error .libraryError

/-! ## Past-epoch message secrets (`mod.rs::message_secrets_for_epoch`) -/

/-- `CoreGroup::message_secrets_for_epoch`: epochs strictly older than
the current one are looked up in the store (`TooDistantInThePast` when
absent); otherwise the current epoch's secrets are returned. -/
def CoreGroup.messageSecretsForEpoch (g : CoreGroup) (epoch : Nat) :
    Except SecretTreeError MessageSecrets :=
  if epoch < g.groupContext.epoch then
    match g.messageSecretsStore.secretsForEpoch epoch with
    | some ms => .ok ms
    | none => .error .tooDistantInThePast
  else
    .ok g.messageSecretsStore.messageSecrets

/-! ## Add-proposal validation (`validation.rs::validate_add_proposals`) -/

/-- The per-key-package capability conditions of ValSem106 as one
predicate (used to state theorems; `validateAddLoop` performs the same
checks in the source's order). -/
def capsOk (g : CoreGroup) (kp : KeyPackage) : Bool :=
  (kp.ciphersuite = g.ciphersuite && kp.protocolVersion = g.mlsVersion) &&
  (g.ciphersuite ∈ kp.capabilities.ciphersuites
    && g.mlsVersion ∈ kp.capabilities.versions) &&
  (match g.groupContext.extensions.find?
      (fun e => e.extensionType = ExtensionType.requiredCapabilities) with
    | some (.requiredCapabilities rc) =>
        kp.capabilities.supportsRequiredCapabilities rc
    | some _ => false
    | none => true)

/-- The first loop of `validate_add_proposals`: scan the Adds in order,
accumulating the identity / signature-key / HPKE-init-key sets and
rejecting with the Duplicate errors (ValSem100–102) or
`InsufficientCapabilities` (ValSem106); returns the three sets. -/
def validateAddLoop (g : CoreGroup) :
    List KeyPackage → List Bytes → List Bytes → List Bytes →
    Except ProposalValidationError (List Bytes × List Bytes × List Bytes)
  | [], ids, sigs, pks => .ok (ids, sigs, pks)
  | kp :: rest, ids, sigs, pks =>
    if kp.credential.identity ∈ ids then
      .error .duplicateIdentityAddProposal
    else if kp.credential.signatureKey ∈ sigs then
      .error .duplicateSignatureKeyAddProposal
    else if kp.hpkeInitKey ∈ pks then
      .error .duplicatePublicKeyAddProposal
    else if kp.ciphersuite ≠ g.ciphersuite ∨ kp.protocolVersion ≠ g.mlsVersion then
      .error .insufficientCapabilities
    else if ¬ (g.ciphersuite ∈ kp.capabilities.ciphersuites
        ∧ g.mlsVersion ∈ kp.capabilities.versions) then
      .error .insufficientCapabilities
    else
      match g.groupContext.extensions.find?
          (fun e => e.extensionType = ExtensionType.requiredCapabilities) with
      | some (.requiredCapabilities rc) =>
          if kp.capabilities.supportsRequiredCapabilities rc then
            validateAddLoop g rest (kp.credential.identity :: ids)
              (kp.credential.signatureKey :: sigs) (kp.hpkeInitKey :: pks)
          else .error .insufficientCapabilities
      | some _ => .error .libraryError
      | none =>
          validateAddLoop g rest (kp.credential.identity :: ids)
            (kp.credential.signatureKey :: sigs) (kp.hpkeInitKey :: pks)

/-- The second loop of `validate_add_proposals`: scan the current full
members and reject collisions with the accumulated sets
(ValSem103–105); the public key is re-fetched from the tree exactly as
in the source. -/
def checkMembersLoop (t : TreeSync) :
    List Member → List Bytes → List Bytes → List Bytes →
    Except ProposalValidationError Unit
  | [], _, _, _ => .ok ()
  | m :: rest, ids, sigs, pks =>
    if m.identity ∈ ids then
      .error .existingIdentityAddProposal
    else if m.signatureKey ∈ sigs then
      .error .existingSignatureKeyAddProposal
    else
      match t.leaf m.index with
      | .error _ => .error .unknownMember
      | .ok none => .error .unknownMember
      | .ok (some l) =>
          if l.publicKey ∈ pks then
            .error .existingPublicKeyAddProposal
          else
            checkMembersLoop t rest ids sigs pks

/-- `CoreGroup::validate_add_proposals` (ValSem100–106). -/
def CoreGroup.validateAddProposals (g : CoreGroup) (q : ProposalQueue) :
    Except ProposalValidationError Unit := do
  let (ids, sigs, pks) ← validateAddLoop g q.addKeyPackages [] [] []
  checkMembersLoop g.tree g.tree.fullLeaveMembers ids sigs pks

/-! ## Remove-proposal validation (`validation.rs::validate_remove_proposals`) -/

/-- Modelled from the spec: `TreeSync::leaf_is_in_tree` (not under
`src/`); ValSem108 asks that the index denote a currently occupied leaf
(spec §4.C). -/
def TreeSync.leafIsInTree (t : TreeSync) (i : Nat) : Bool :=
  match t.leaves.get? i with
  | some (some _) => true
  | _ => false

/-- The loop of `validate_remove_proposals` (ValSem107/108). -/
def validateRemoveLoop (t : TreeSync) :
    List Nat → List Nat → Except ProposalValidationError Unit
  | [], _ => .ok ()
  | r :: rest, seen =>
    if r ∈ seen then .error .duplicateMemberRemoval
    else if ¬ t.leafIsInTree r then .error .unknownMemberRemoval
    else validateRemoveLoop t rest (r :: seen)

/-- `CoreGroup::validate_remove_proposals` (ValSem107/108). -/
def CoreGroup.validateRemoveProposals (g : CoreGroup) (q : ProposalQueue) :
    Except ProposalValidationError Unit :=
  validateRemoveLoop g.tree q.removeProposals []

/-! ## Update-proposal validation (`validation.rs::validate_update_proposals`) -/

/-- The key-collection prefix of `validate_update_proposals`: fetch the
encryption key of every occupied leaf (8.3 leaf-node validation);
lookup failures surface as library errors as in the source. -/
def collectKeysLoop (t : TreeSync) :
    List Nat → List Bytes → Except ProposalValidationError (List Bytes)
  | [], acc => .ok acc
  | i :: rest, acc =>
    match t.leaf i with
    | .error _ => .error .libraryError
    | .ok none => .error .libraryError
    | .ok (some l) => collectKeysLoop t rest (l.publicKey :: acc)

/-- The per-update loop of `validate_update_proposals`
(ValSem109–112): non-member senders are rejected; a sender equal to the
committer is rejected with `CommitterIncludedOwnUpdate` before any
other per-update check; then identity match and encryption-key
freshness are enforced against the existing leaf. -/
def validateUpdateLoop (t : TreeSync) (committer : Nat) (keys : List Bytes) :
    List (UpdateProposal × Sender) → Except ProposalValidationError Unit
  | [] => .ok ()
  | (up, snd) :: rest =>
    match snd with
    | .member senderIndex =>
        if committer = senderIndex then
          .error .committerIncludedOwnUpdate
        else
          match t.leaf senderIndex with
          | .error _ => .error .unknownMember
          | .ok none => .error .unknownMember
          | .ok (some leafNode) =>
              if up.leafNode.credential.identity ≠ leafNode.credential.identity then
                .error .updateProposalIdentityMismatch
              else if up.leafNode.encryptionKey ∈ keys then
                .error .existingPublicKeyUpdateProposal
              else
                validateUpdateLoop t committer keys rest
    | _ => .error .updateFromNonMember

/-- `CoreGroup::validate_update_proposals` as it stands in
`validation.rs`: the `committer` argument is the Commit sender's leaf
index (`u32`); returns the set of existing encryption keys. -/
def CoreGroup.validateUpdateProposals (g : CoreGroup) (q : ProposalQueue)
    (committer : Nat) : Except ProposalValidationError (List Bytes) := do
  let keys ← collectKeysLoop g.tree g.tree.fullLeaves []
  validateUpdateLoop g.tree committer keys q.updateProposals
  pure keys

/-! ## External-commit validation (`validation.rs::validate_external_commit`) -/

/-- The inline allowlist of ValSem242. -/
def allowedInlineType (p : Proposal) : Bool :=
  match p with
  | .externalInit _ => true
  | .remove _ => true
  | .preSharedKey _ => true
  | _ => false

/-- The ValSem243 loop of `validate_external_commit`: every inline
Remove must remove a leaf whose identity matches the path's new leaf. -/
def checkExternalRemoves (t : TreeSync) (pathLeafNode : Option LeafNode) :
    ProposalQueue → Except ExternalCommitValidationError Unit
  | [] => .ok ()
  | p :: rest =>
    if p.proposalOrRefType = .proposal then
      match p.proposal with
      | .remove r =>
          (match pathLeafNode with
          | some newLeaf =>
              match t.leaf r.removed with
              | .error _ => .error .unknownMemberRemoval
              | .ok none => .error .unknownMemberRemoval
              | .ok (some removedLeaf) =>
                  if removedLeaf.credential.identity ≠ newLeaf.credential.identity then
                    .error .invalidRemoveProposal
                  else
                    checkExternalRemoves t pathLeafNode rest
          | none => checkExternalRemoves t pathLeafNode rest)
      | _ => checkExternalRemoves t pathLeafNode rest
    else
      checkExternalRemoves t pathLeafNode rest

/-- `CoreGroup::validate_external_commit` (ValSem240–243). -/
def CoreGroup.validateExternalCommit (g : CoreGroup) (q : ProposalQueue)
    (pathLeafNode : Option LeafNode) :
    Except ExternalCommitValidationError Unit :=
  let countExternalInit := (q.filteredByKind .externalInit).length
  if countExternalInit = 0 then
    .error .noExternalInitProposals
  else if countExternalInit > 1 then
    .error .multipleExternalInitProposals
  else
    let containsDeniedProposal := q.any (fun p =>
      p.proposalOrRefType = ProposalOrRefType.proposal
        && !(allowedInlineType p.proposal))
    if containsDeniedProposal then
      .error .invalidInlineProposals
    else
      checkExternalRemoves g.tree pathLeafNode (q.filteredByKind .remove)

/-! ## The staged-commit pipeline (`staged_commit.rs::stage_commit`) -/

/-- `UpdatePath`: the leaf key package plus the encrypted path nodes
(the nodes are opaque to `stage_commit` and handed to `decrypt_path`). -/
structure UpdatePath where
  leafKeyPackage : KeyPackage
  nodes : List Bytes
  deriving DecidableEq, Repr

/-- `ProposalOrRef`. -/
inductive ProposalOrRef where
  | proposal (p : Proposal)
  | reference (r : Bytes)
  deriving DecidableEq, Repr

/-- `Commit { proposals, path }`. -/
structure Commit where
  proposals : List ProposalOrRef
  path : Option UpdatePath
  deriving DecidableEq, Repr

/-- `MlsPlaintextContentType`. -/
inductive MlsPlaintextContentType where
  | commit (c : Commit)
  | application (bytes : Bytes)
  | proposal (p : Proposal)
  deriving DecidableEq, Repr

/-- The fields of `MlsPlaintext` read by `stage_commit`. -/
structure MlsPlaintext where
  epoch : Nat
  sender : Sender
  content : MlsPlaintextContentType
  confirmationTag : Option Bytes
  deriving DecidableEq, Repr

/-- `MlsPlaintext::sender_index` (in the embedded version every framed
handshake sender carries a leaf index; non-member senders are mapped to
index 0, which no embedded theorem relies on). -/
def MlsPlaintext.senderIndex (pt : MlsPlaintext) : Nat :=
  match pt.sender with
  | .member i => i
  | _ => 0

/-- The result of `apply_staged_proposals` (`ApplyProposalsValues`):
self-removal flag, path-required flag, optional external init secret,
collected PSKs and the exclusion list for path decryption. -/
structure ApplyProposalsValues where
  selfRemoved : Bool
  pathRequired : Bool
  externalInitSecretOption : Option Bytes
  presharedkeys : List Nat
  exclusionList : List Nat
  deriving DecidableEq, Repr

/-- Collaborators `stage_commit` invokes before the self-removal check;
their implementations are not under `src/`, so they are abstract:
* `fromCommittedProposals` — `StagedProposalQueue::from_committed_proposals`
  (resolve references in the proposal store, preserving order);
* `validateUpdateCall` — the update-proposal validation exactly as the
  call site invokes it, i.e. on `sender_key_package_tuple`
  (`Option<(Sender, &KeyPackage)>`); the validator in `src/validation.rs`
  instead expects `committer : u32`, so no callee under `src/` matches
  this call shape (see the C4 analysis);
* `emptyDiff` — `TreeSync::empty_diff`;
* `applyStagedProposals` — `CoreGroup::apply_staged_proposals`. -/
structure EnvPre where
  fromCommittedProposals : List ProposalOrRef → Sender → Except Unit ProposalQueue
  validateUpdateCall : ProposalQueue → Option (Sender × KeyPackage) →
    Except ProposalValidationError Unit
  emptyDiff : TreeSync → Except Unit TreeSync
  applyStagedProposals : TreeSync → ProposalQueue → List KeyPackageBundle →
    Except Unit (TreeSync × ApplyProposalsValues)

/-- Collaborators `stage_commit` (and `merge_commit_take_message_secrets`)
invoke after the self-removal check; all are outside the embedded files
and therefore abstract functions. -/
structure EnvPost where
  verifyKeyPackage : KeyPackage → Bool
  serializeGroupContext : GroupContext → Except Unit Bytes
  reApplyOwnUpdatePath : TreeSync → KeyPackageBundle → Except Unit (TreeSync × Bytes)
  addLeaf : TreeSync → KeyPackage → Except Unit TreeSync
  decryptPath : TreeSync → List Bytes → Nat → List Nat → Bytes →
    Except Unit (Bytes × Bytes)
  applyReceivedUpdatePath : TreeSync → Nat → KeyPackage → Bytes →
    Except Unit TreeSync
  zeroCommitSecret : Bytes
  joinerSecretNew : Bytes → Bytes → Except Unit Bytes
  hash : Bytes → Bytes
  serializeCommitContent : MlsPlaintext → Except Unit Bytes
  serializeAuthData : Bytes → Bytes
  computeTreeHashes : TreeSync → Except Unit Bytes
  pskSecretNew : List Nat → Except Unit Bytes
  keyScheduleEpochSecrets : Bytes → Bytes → Bytes → Except Unit EpochSecrets
  confirmationTag : Bytes → Bytes → Except Unit Bytes
  splitSecrets : EpochSecrets → Bytes → Nat → GroupEpochSecrets × MessageSecrets
  intoStagedDiff : TreeSync → Except Unit StagedTreeSyncDiff
  mergeDiff : TreeSync → StagedTreeSyncDiff → Except Unit TreeSync

/-- `mod.rs::update_confirmed_transcript_hash`:
`H(interim_transcript_hash ‖ serialized commit content)` (the
serialization is performed by the caller-side environment function). -/
def updateConfirmedTranscriptHash (hash : Bytes → Bytes)
    (commitContentBytes interimTranscriptHash : Bytes) : Bytes :=
  hash (interimTranscriptHash ++ commitContentBytes)

/-- `mod.rs::update_interim_transcript_hash`:
`H(confirmed_transcript_hash ‖ serialized commit auth data)`. -/
def updateInterimTranscriptHash (hash : Bytes → Bytes)
    (commitAuthDataBytes confirmedTranscriptHash : Bytes) : Bytes :=
  hash (confirmedTranscriptHash ++ commitAuthDataBytes)

/-- Modelled from the spec: `StagedProposal::from_proposal_and_sender`
produces the queue entry `(proposal, sender, reference_type)` (spec
§4.B); the reference type is not read by any queue iterator. -/
def fromProposalAndSender (p : Proposal) (s : Sender) : QueuedProposal :=
  { proposal := p, sender := s, proposalOrRefType := .reference }

/-- Everything `stage_commit` has computed when it reaches the
self-removal check (its straight-line prefix). -/
structure StartR where
  commit : Commit
  receivedTag : Bytes
  queue : ProposalQueue
  pathKeyPackage : Option KeyPackage
  diff : TreeSync
  applyValues : ApplyProposalsValues
  deriving DecidableEq, Repr

/-- The prefix of `stage_commit` up to and including
`apply_staged_proposals`: epoch check, content and confirmation-tag
extraction, queue construction, proposal validation, diff creation and
proposal application — in the source's order and with the source's
error conversions. -/
def stageCommitStart (pre : EnvPre) (g : CoreGroup) (pt : MlsPlaintext) :
    Except CoreGroupError StartR := do
  if pt.epoch ≠ g.groupContext.epoch then
    throw (.stageCommit .epochMismatch)
  let commit ← match pt.content with
    | .commit c => pure c
    | _ => throw (.stageCommit .wrongPlaintextContentType)
  let receivedTag ← match pt.confirmationTag with
    | some tag => pure tag
    | none => throw (.stageCommit .confirmationTagMissing)
  let queue ← match pre.fromCommittedProposals commit.proposals pt.sender with
    | .ok q => pure q
    | .error _ => throw (.stageCommit .missingProposal)
  let pathKeyPackage := commit.path.map (fun p => p.leafKeyPackage)
  let senderKeyPackageTuple := pathKeyPackage.map (fun kp => (pt.sender, kp))
  match g.validateAddProposals queue with
  | .ok _ => pure ()
  | .error e => throw (.proposalValidation e)
  match g.validateRemoveProposals queue with
  | .ok _ => pure ()
  | .error e => throw (.proposalValidation e)
  match pre.validateUpdateCall queue senderKeyPackageTuple with
  | .ok _ => pure ()
  | .error e => throw (.proposalValidation e)
  let diff ← match pre.emptyDiff g.tree with
    | .ok d => pure d
    | .error _ => throw .treeSyncError
  let (diff, applyValues) ←
    match pre.applyStagedProposals diff queue [] with
    | .ok dv => pure dv
    | .error _ => throw (.stageCommit .ownKeyNotFound)
  pure { commit, receivedTag, queue, pathKeyPackage, diff, applyValues }

/-- The path-handling block of `stage_commit` (source lines 123–185):
verify the path's key package, then either replay the own update path,
or (for external commits) add the sender leaf, decrypt the update path
and apply it; without a path, fail if one was required, else use the
zero commit secret.  Returns the updated diff and the commit secret. -/
def pathStep (post : EnvPost) (g : CoreGroup) (pt : MlsPlaintext)
    (ownKeyPackages : List KeyPackageBundle) (s : StartR) :
    Except CoreGroupError (TreeSync × Bytes) := do
  let sender := pt.senderIndex
  let isOwnCommit := sender = g.tree.ownLeafIndex
  match s.commit.path with
  | some path => do
      let kp := path.leafKeyPackage
      if post.verifyKeyPackage kp = false then
        throw (.stageCommit .pathKeyPackageVerificationFailure)
      let serializedContext ← match post.serializeGroupContext g.groupContext with
        | .ok b => pure b
        | .error _ => throw .codecError
      if isOwnCommit then
        let ownKpb ← match ownKeyPackages.find? (fun kpb => kpb.keyPackage = kp) with
          | some kpb => pure kpb
          | none => throw (.stageCommit .missingOwnKeyPackage)
        match post.reApplyOwnUpdatePath s.diff ownKpb with
        | .ok dc => pure dc
        | .error _ => throw .treeSyncError
      else do
        let diff ← if s.applyValues.externalInitSecretOption.isSome then
            match post.addLeaf s.diff kp with
            | .ok d => pure d
            | .error _ => throw .treeSyncError
          else
            pure s.diff
        let (plainPath, commitSecret) ←
          match post.decryptPath diff path.nodes sender
              s.applyValues.exclusionList serializedContext with
          | .ok pc => pure pc
          | .error _ => throw .treeSyncError
        let diff ← match post.applyReceivedUpdatePath diff sender kp plainPath with
          | .ok d => pure d
          | .error _ => throw .treeSyncError
        pure (diff, commitSecret)
  | none =>
      if s.applyValues.pathRequired then
        throw (.stageCommit .requiredPathNotFound)
      else
        pure (s.diff, post.zeroCommitSecret)

/-- Everything `stage_commit` has computed when it reaches the
confirmation-tag comparison. -/
structure MidR where
  confirmedTranscriptHash : Bytes
  provisionalGroupContext : GroupContext
  serializedProvisionalGroupContext : Bytes
  epochSecrets : EpochSecrets
  interimTranscriptHash : Bytes
  deriving DecidableEq, Repr

/-- The middle section of `stage_commit` (source lines 187–248): init
secret selection, joiner secret, provisional group context and
transcript hashes, PSK secret and key-schedule derivation — in the
source's order and with the source's error conversions. -/
def stageCommitMid (post : EnvPost) (g : CoreGroup) (pt : MlsPlaintext)
    (s : StartR) (diff : TreeSync) (commitSecret : Bytes) :
    Except CoreGroupError MidR := do
  let initSecret ← match s.applyValues.externalInitSecretOption with
    | some is => pure is
    | none =>
        match g.groupEpochSecrets.initSecret with
        | some is => pure is
        | none => throw (.stageCommit .initSecretNotFound)
  let joinerSecret ← match post.joinerSecretNew commitSecret initSecret with
    | .ok j => pure j
    | .error _ => throw .cryptoError
  let provisionalEpoch := g.groupContext.epoch + 1
  let commitContentBytes ← match post.serializeCommitContent pt with
    | .ok b => pure b
    | .error _ => throw .libraryError
  let confirmedTranscriptHash :=
    updateConfirmedTranscriptHash post.hash commitContentBytes
      g.interimTranscriptHash
  let treeHash ← match post.computeTreeHashes diff with
    | .ok h => pure h
    | .error _ => throw .treeSyncError
  let provisionalGroupContext : GroupContext :=
    { groupId := g.groupContext.groupId
      epoch := provisionalEpoch
      treeHash := treeHash
      confirmedTranscriptHash := confirmedTranscriptHash
      extensions := g.groupContext.extensions }
  let pskSecret ← match post.pskSecretNew s.applyValues.presharedkeys with
    | .ok p => pure p
    | .error _ => throw .pskError
  let serializedProvisionalGroupContext ←
    match post.serializeGroupContext provisionalGroupContext with
    | .ok b => pure b
    | .error _ => throw .codecError
  let epochSecrets ← match post.keyScheduleEpochSecrets joinerSecret pskSecret
      serializedProvisionalGroupContext with
    | .ok es => pure es
    | .error _ => throw .keyScheduleError
  let authDataTag ← match pt.confirmationTag with
    | some tag => pure tag
    | none => throw (.stageCommit .confirmationTagMissing)
  let interimTranscriptHash :=
    updateInterimTranscriptHash post.hash (post.serializeAuthData authDataTag)
      confirmedTranscriptHash
  pure { confirmedTranscriptHash, provisionalGroupContext,
         serializedProvisionalGroupContext, epochSecrets,
         interimTranscriptHash }

/-- `CoreGroup::stage_commit`: the full pipeline.  After the prefix, a
self-removal short-circuits with an absent state; otherwise path
handling, key-schedule derivation, the confirmation-tag comparison
(ValSem205), the post-hoc synthetic Update proposal for the path's key
package (source TODO #424), secret splitting and diff finalization. -/
def stageCommit (pre : EnvPre) (post : EnvPost) (g : CoreGroup)
    (pt : MlsPlaintext) (ownKeyPackages : List KeyPackageBundle) :
    Except CoreGroupError StagedCommit := do
  let s ← stageCommitStart pre g pt
  if s.applyValues.selfRemoved then
    pure { stagedProposalQueue := s.queue, state := none }
  else do
    let (diff, commitSecret) ← pathStep post g pt ownKeyPackages s
    let mid ← stageCommitMid post g pt s diff commitSecret
    let ownConfirmationTag ←
      match post.confirmationTag mid.epochSecrets.confirmationKey
          mid.confirmedTranscriptHash with
      | .ok t => pure t
      | .error _ => throw .cryptoError
    if ownConfirmationTag ≠ s.receivedTag then
      throw (.stageCommit .confirmationTagMismatch)
    let queue := match s.pathKeyPackage with
      | some kp =>
          s.queue ++ [fromProposalAndSender (.update { keyPackage := kp }) pt.sender]
      | none => s.queue
    let (provisionalGroupEpochSecrets, provisionalMessageSecrets) :=
      post.splitSecrets mid.epochSecrets mid.serializedProvisionalGroupContext
        diff.leafCount
    let stagedDiff ← match post.intoStagedDiff diff with
      | .ok d => pure d
      | .error _ => throw .treeSyncError
    pure { stagedProposalQueue := queue
           state := some
             { groupContext := mid.provisionalGroupContext
               groupEpochSecrets := provisionalGroupEpochSecrets
               messageSecrets := provisionalMessageSecrets
               interimTranscriptHash := mid.interimTranscriptHash
               stagedDiff := stagedDiff } }

/-- State-passing form of `stage_commit`: the Rust function takes
`&mut self` but its body never assigns to any field of `self`, so the
group component of the result is the unchanged input group. -/
def stageCommitSt (pre : EnvPre) (post : EnvPost) (g : CoreGroup)
    (pt : MlsPlaintext) (ownKeyPackages : List KeyPackageBundle) :
    Except CoreGroupError StagedCommit × CoreGroup :=
  (stageCommit pre post g pt ownKeyPackages, g)

/-! ## Merging (`staged_commit.rs::merge_commit_take_message_secrets`) -/

/-- `CoreGroup::merge_commit_take_message_secrets`, in state-passing
form.  With a present state: replace `group_context`,
`group_epoch_secrets`, swap the current message secrets against the
staged ones (returning the outgoing epoch's), set the interim
transcript hash and merge the staged tree diff (whose failure leaves
the already-written fields in place, as in the source).  With an absent
state: a no-op returning `None`.  The embedded `staged_commit.rs`
predates the `message_secrets_store` field of `mod.rs`; its
`self.message_secrets` slot corresponds to the store's current-epoch
secrets. -/
def mergeCommitTakeMessageSecrets (post : EnvPost) (g : CoreGroup)
    (sc : StagedCommit) :
    Except CoreGroupError (Option MessageSecrets) × CoreGroup :=
  match sc.state with
  | none => (.ok none, g)
  | some st =>
      let outgoing := g.messageSecretsStore.current
      let g' : CoreGroup :=
        { g with
          groupContext := st.groupContext
          groupEpochSecrets := st.groupEpochSecrets
          messageSecretsStore :=
            { g.messageSecretsStore with current := st.messageSecrets }
          interimTranscriptHash := st.interimTranscriptHash }
      match post.mergeDiff g'.tree st.stagedDiff with
      | .ok tree' => (.ok (some outgoing), { g' with tree := tree' })
      | .error _ => (.error .treeSyncError, g')

/-! ## Claim C7: framing validation -/

/-- C7: `validate_framing` returns `WrongGroupId` when the message's
group id differs from the live one; with matching group id,
non-application content fails with `WrongEpoch` exactly when the
message epoch differs from the live epoch, and application content
fails with `WrongEpoch` exactly when the message epoch is strictly
greater than the live epoch; the remaining epoch combinations pass. -/
theorem validateFraming_spec (g : CoreGroup) (m : MlsMessageIn) :
    (m.groupId ≠ g.groupContext.groupId →
      g.validateFraming m = .error .wrongGroupId)
    ∧ (m.groupId = g.groupContext.groupId → m.contentType ≠ .application →
      (g.validateFraming m = .error .wrongEpoch ↔
        m.epoch ≠ g.groupContext.epoch))
    ∧ (m.groupId = g.groupContext.groupId → m.contentType = .application →
      (g.validateFraming m = .error .wrongEpoch ↔
        m.epoch > g.groupContext.epoch))
    ∧ (m.groupId = g.groupContext.groupId → m.contentType = .application →
      m.epoch ≤ g.groupContext.epoch → g.validateFraming m = .ok ())
    ∧ (m.groupId = g.groupContext.groupId → m.contentType ≠ .application →
      m.epoch = g.groupContext.epoch → g.validateFraming m = .ok ()) := by
  unfold CoreGroup.validateFraming
  refine ⟨fun h => by simp [h], ?_, ?_, ?_, ?_⟩
  · intro h hc
    cases hm : m.contentType
    case application => exact absurd hm hc
    all_goals
      by_cases he : m.epoch = g.groupContext.epoch <;> simp [h, he]
  · intro h hc
    by_cases he : m.epoch > g.groupContext.epoch <;> simp [h, hc, he]
  · intro h hc he
    simp [h, hc, Nat.not_lt.mpr he]
  · intro h hc he
    cases hm : m.contentType
    case application => exact absurd hm hc
    all_goals simp [h, he]

/-- Witness for C7 at a concrete message whose group id differs from
the live group id. -/
theorem validateFraming_spec_witness :
    CoreGroup.validateFraming
      { ciphersuite := 7
        groupContext := ⟨[9], 5, [], [], []⟩
        groupEpochSecrets := ⟨some [10], [11], [12], [13], [14]⟩
        tree := ⟨[], 0⟩
        interimTranscriptHash := [30]
        useRatchetTreeExtension := false
        mlsVersion := 8
        messageSecretsStore := ⟨2, [], ⟨[20]⟩⟩ }
      ⟨[8], 5, .commit⟩ = .error .wrongGroupId :=
  (validateFraming_spec _ _).1 (by decide)

/-! ## Claim C8: exporter key length -/

/-- C8: `export_secret` rejects every key length strictly greater than
`2^16 - 1` with `KeyLengthTooLong`, and never returns that error for a
requested length of exactly `2^16 - 1`. -/
theorem exportSecret_spec (be : ExporterBackend) (g : CoreGroup)
    (label context : Bytes) (keyLength : Nat) :
    (keyLength > 65535 →
      CoreGroup.exportSecret be g label context keyLength =
        .error .keyLengthTooLong)
    ∧ CoreGroup.exportSecret be g label context 65535 ≠
        .error .keyLengthTooLong := by
  constructor
  · intro h
    simp [CoreGroup.exportSecret, h]
  · unfold CoreGroup.exportSecret
    rw [if_neg (by omega)]
    cases hbe : be.deriveExportedSecret g.ciphersuite
        g.groupEpochSecrets.exporterSecret label context 65535 <;> simp

/-- Witness for C8: the length `2^16` is rejected. -/
theorem exportSecret_spec_witness :
    CoreGroup.exportSecret ⟨fun _ _ _ _ _ => .ok [58]⟩
      { ciphersuite := 7
        groupContext := ⟨[9], 5, [], [], []⟩
        groupEpochSecrets := ⟨some [10], [11], [12], [13], [14]⟩
        tree := ⟨[], 0⟩
        interimTranscriptHash := [30]
        useRatchetTreeExtension := false
        mlsVersion := 8
        messageSecretsStore := ⟨2, [], ⟨[20]⟩⟩ }
      [] [] 65536 = .error .keyLengthTooLong :=
  (exportSecret_spec _ _ _ _ 65536).1 (by omega)

/-! ## Claim C10: past-epoch message secrets -/

/-- C10: `message_secrets_for_epoch e` fails with `TooDistantInThePast`
exactly when `e` is strictly below the current group-context epoch and
the past-epoch store has no entry for `e`; every `e` at or above the
current epoch (including future epochs) yields the current epoch's
message secrets. -/
theorem messageSecretsForEpoch_spec (g : CoreGroup) (e : Nat) :
    (g.messageSecretsForEpoch e = .error .tooDistantInThePast ↔
      (e < g.groupContext.epoch ∧
        g.messageSecretsStore.secretsForEpoch e = none))
    ∧ (g.groupContext.epoch ≤ e →
      g.messageSecretsForEpoch e = .ok g.messageSecretsStore.messageSecrets) := by
  unfold CoreGroup.messageSecretsForEpoch
  constructor
  · by_cases h : e < g.groupContext.epoch
    · simp only [if_pos h]
      cases hs : g.messageSecretsStore.secretsForEpoch e <;> simp [h, hs]
    · simp [h]
  · intro h
    rw [if_neg (by omega)]

/-- Witness for C10: epoch 3 is below the current epoch 5 and absent
from a store retaining only epoch 4. -/
theorem messageSecretsForEpoch_spec_witness :
    CoreGroup.messageSecretsForEpoch
      { ciphersuite := 7
        groupContext := ⟨[9], 5, [], [], []⟩
        groupEpochSecrets := ⟨some [10], [11], [12], [13], [14]⟩
        tree := ⟨[], 0⟩
        interimTranscriptHash := [30]
        useRatchetTreeExtension := false
        mlsVersion := 8
        messageSecretsStore := ⟨2, [(4, ⟨[21]⟩, [])], ⟨[20]⟩⟩ }
      3 = .error .tooDistantInThePast :=
  (messageSecretsForEpoch_spec _ 3).1.mpr ⟨by decide, by decide⟩

/-! ## Claim C2: merging a staged commit -/

/-- C2: with a present state, `merge_commit_take_message_secrets`
replaces the group context, group epoch secrets and interim transcript
hash with the staged values, installs the staged message secrets while
returning the outgoing epoch's, and merges the staged tree diff; with
an absent state it changes nothing and returns `None`. -/
theorem mergeCommitTakeMessageSecrets_spec (post : EnvPost) (g : CoreGroup)
    (sc : StagedCommit) :
    (∀ st tree', sc.state = some st →
      post.mergeDiff g.tree st.stagedDiff = .ok tree' →
      mergeCommitTakeMessageSecrets post g sc =
        (.ok (some g.messageSecretsStore.current),
          { g with
            groupContext := st.groupContext
            groupEpochSecrets := st.groupEpochSecrets
            messageSecretsStore :=
              { g.messageSecretsStore with current := st.messageSecrets }
            interimTranscriptHash := st.interimTranscriptHash
            tree := tree' }))
    ∧ (sc.state = none →
      mergeCommitTakeMessageSecrets post g sc = (.ok none, g)) := by
  constructor
  · intro st tree' hst hm
    simp only [mergeCommitTakeMessageSecrets, hst]
    rw [hm]
  · intro hst
    simp only [mergeCommitTakeMessageSecrets, hst]

/-! ## Witness scenario for the staged-commit claims -/

/-- Leaf of the own member (index 0) in the witness scenario. -/
def wsLeafA : LeafNode := ⟨⟨[1], [2]⟩, [3]⟩

/-- Leaf of the second member (index 1) in the witness scenario. -/
def wsLeafB : LeafNode := ⟨⟨[4], [5]⟩, [6]⟩

/-- Two-member witness tree with own leaf index 0. -/
def wsTree : TreeSync := ⟨[some wsLeafA, some wsLeafB], 0⟩

/-- Witness group at epoch 5. -/
def wsGroup : CoreGroup :=
  { ciphersuite := 7
    groupContext := ⟨[9], 5, [], [], []⟩
    groupEpochSecrets := ⟨some [10], [11], [12], [13], [14]⟩
    tree := wsTree
    interimTranscriptHash := [30]
    useRatchetTreeExtension := false
    mlsVersion := 8
    messageSecretsStore := ⟨2, [(4, ⟨[21]⟩, [])], ⟨[20]⟩⟩ }

/-- Proposal-application outcome without self-removal. -/
def wsApplyValues : ApplyProposalsValues := ⟨false, false, none, [], []⟩

/-- Proposal-application outcome with self-removal. -/
def wsApplyValuesSelf : ApplyProposalsValues := ⟨true, false, none, [], []⟩

/-- Pre-environment whose collaborators all succeed. -/
def wsPre : EnvPre :=
  { fromCommittedProposals := fun _ _ => .ok []
    validateUpdateCall := fun _ _ => .ok ()
    emptyDiff := fun t => .ok t
    applyStagedProposals := fun d _ _ => .ok (d, wsApplyValues) }

/-- Pre-environment whose proposal application removes the own leaf. -/
def wsPreSelf : EnvPre :=
  { wsPre with applyStagedProposals := fun d _ _ => .ok (d, wsApplyValuesSelf) }

/-- Post-environment whose collaborators all succeed; the derived
confirmation tag is `[1]`. -/
def wsPost : EnvPost :=
  { verifyKeyPackage := fun _ => true
    serializeGroupContext := fun _ => .ok [40]
    reApplyOwnUpdatePath := fun d _ => .ok (d, [41])
    addLeaf := fun d _ => .ok d
    decryptPath := fun _ _ _ _ _ => .ok ([42], [43])
    applyReceivedUpdatePath := fun d _ _ _ => .ok d
    zeroCommitSecret := [44]
    joinerSecretNew := fun _ _ => .ok [45]
    hash := fun _ => [46]
    serializeCommitContent := fun _ => .ok [47]
    serializeAuthData := fun t => t
    computeTreeHashes := fun _ => .ok [48]
    pskSecretNew := fun _ => .ok [49]
    keyScheduleEpochSecrets := fun _ _ _ => .ok ⟨[50], [51]⟩
    confirmationTag := fun _ _ => .ok [1]
    splitSecrets := fun _ _ _ => (⟨some [52], [53], [54], [55], [56]⟩, ⟨[57]⟩)
    intoStagedDiff := fun d => .ok ⟨d⟩
    mergeDiff := fun t _ => .ok t }

/-- A pathless Commit body. -/
def wsCommitNoPath : Commit := ⟨[], none⟩

/-- A Commit plaintext from member 1 at epoch 5 whose received
confirmation tag `[0]` differs from the derived tag `[1]`. -/
def wsPt : MlsPlaintext := ⟨5, .member 1, .commit wsCommitNoPath, some [0]⟩

/-- The prefix result for `wsPt` under `wsPre`. -/
def wsS : StartR := ⟨wsCommitNoPath, [0], [], none, wsTree, wsApplyValues⟩

/-- The prefix result for `wsPt` under `wsPreSelf`. -/
def wsSSelf : StartR := ⟨wsCommitNoPath, [0], [], none, wsTree, wsApplyValuesSelf⟩

/-- The mid-pipeline result for `wsPt` under `wsPost`. -/
def wsMid : MidR := ⟨[46], ⟨[9], 6, [48], [46], []⟩, [40], ⟨[50], [51]⟩, [46]⟩

/-- The key package carried by the witness update path. -/
def wsKP : KeyPackage := ⟨⟨[4], [5]⟩, [6], 7, 8, ⟨[8], [7], [], [], []⟩⟩

/-- The witness update path. -/
def wsPath : UpdatePath := ⟨wsKP, [[60]]⟩

/-- A Commit body carrying the witness update path. -/
def wsCommitPath : Commit := ⟨[], some wsPath⟩

/-- A Commit plaintext from member 1 whose received tag `[1]` matches
the derived tag. -/
def wsPtPath : MlsPlaintext := ⟨5, .member 1, .commit wsCommitPath, some [1]⟩

/-- The prefix result for `wsPtPath` under `wsPre`. -/
def wsSPath : StartR := ⟨wsCommitPath, [1], [], some wsKP, wsTree, wsApplyValues⟩

/-- A staged state used by the merge witness. -/
def wsSCState : StagedCommitState :=
  ⟨⟨[9], 6, [48], [46], []⟩, ⟨some [52], [53], [54], [55], [56]⟩, ⟨[57]⟩,
    [46], ⟨wsTree⟩⟩

/-- A staged commit with present state used by the merge witness. -/
def wsSC : StagedCommit := ⟨[], some wsSCState⟩

/-- Witness for C2: merging `wsSC` into `wsGroup` returns the outgoing
message secrets and installs the staged state. -/
theorem mergeCommitTakeMessageSecrets_spec_witness :
    mergeCommitTakeMessageSecrets wsPost wsGroup wsSC =
      (.ok (some wsGroup.messageSecretsStore.current),
        { wsGroup with
          groupContext := wsSCState.groupContext
          groupEpochSecrets := wsSCState.groupEpochSecrets
          messageSecretsStore :=
            { wsGroup.messageSecretsStore with current := wsSCState.messageSecrets }
          interimTranscriptHash := wsSCState.interimTranscriptHash
          tree := wsTree }) :=
  (mergeCommitTakeMessageSecrets_spec wsPost wsGroup wsSC).1 wsSCState wsTree
    rfl rfl

/-! ## Claim C3: self-removal short circuit -/

/-- C3: when the applied proposals remove the own leaf, `stage_commit`
returns `Ok` with an absent state (so `self_removed()` is true) and the
staged proposal queue retained, independently of every collaborator
invoked after the short circuit (path processing, key schedule,
confirmation-tag computation): the post-environment is universally
quantified. -/
theorem stageCommit_selfRemoved_spec (pre : EnvPre) (g : CoreGroup)
    (pt : MlsPlaintext) (s : StartR)
    (h1 : stageCommitStart pre g pt = .ok s)
    (h2 : s.applyValues.selfRemoved = true) :
    ∀ (post : EnvPost) (ownKeyPackages : List KeyPackageBundle),
      stageCommit pre post g pt ownKeyPackages =
        .ok { stagedProposalQueue := s.queue, state := none }
      ∧ StagedCommit.selfRemoved
          { stagedProposalQueue := s.queue, state := none } = true := by
  intro post ownKeyPackages
  refine ⟨?_, rfl⟩
  unfold stageCommit
  rw [h1]
  simp [Bind.bind, Except.bind, h2, Pure.pure, Except.pure]

/-- Witness for C3: a commit whose proposal application removes the own
member short-circuits with an absent state under a concrete
post-environment. -/
theorem stageCommit_selfRemoved_spec_witness :
    stageCommit wsPreSelf wsPost wsGroup wsPt [] =
      .ok { stagedProposalQueue := wsSSelf.queue, state := none }
    ∧ StagedCommit.selfRemoved
        { stagedProposalQueue := wsSSelf.queue, state := none } = true :=
  stageCommit_selfRemoved_spec wsPreSelf wsGroup wsPt wsSSelf (by rfl) (by rfl)
    wsPost []

/-! ## Claim C1: confirmation-tag mismatch -/

/-- C1: when the pipeline reaches the confirmation-tag comparison and
the MAC derived under the provisional confirmation key from the
provisional confirmed transcript hash differs byte-wise from the
Commit's received tag, `stage_commit` returns
`ConfirmationTagMismatch`, and the live group state is returned
unchanged (the state-passing form threads the group through). -/
theorem stageCommit_tagMismatch_spec (pre : EnvPre) (post : EnvPost)
    (g : CoreGroup) (pt : MlsPlaintext)
    (ownKeyPackages : List KeyPackageBundle) (s : StartR) (diff : TreeSync)
    (commitSecret : Bytes) (mid : MidR) (t : Bytes)
    (h1 : stageCommitStart pre g pt = .ok s)
    (h2 : s.applyValues.selfRemoved = false)
    (h3 : pathStep post g pt ownKeyPackages s = .ok (diff, commitSecret))
    (h4 : stageCommitMid post g pt s diff commitSecret = .ok mid)
    (h5 : post.confirmationTag mid.epochSecrets.confirmationKey
      mid.confirmedTranscriptHash = .ok t)
    (h6 : t ≠ s.receivedTag) :
    stageCommitSt pre post g pt ownKeyPackages =
      (.error (.stageCommit .confirmationTagMismatch), g) := by
  simp only [stageCommitSt, Prod.mk.injEq, and_true]
  unfold stageCommit
  rw [h1]
  simp only [Bind.bind, Except.bind, h2, if_false, Bool.false_eq_true]
  rw [h3]
  simp only [Except.bind]
  rw [h4]
  simp only [Except.bind]
  rw [h5]
  simp [Bind.bind, Except.bind, h6, Pure.pure, Except.pure]

/-- Witness for C1: the derived tag `[1]` differs from the received tag
`[0]`, so staging fails with `ConfirmationTagMismatch` and the group is
unchanged. -/
theorem stageCommit_tagMismatch_spec_witness :
    stageCommitSt wsPre wsPost wsGroup wsPt [] =
      (.error (.stageCommit .confirmationTagMismatch), wsGroup) :=
  stageCommit_tagMismatch_spec wsPre wsPost wsGroup wsPt [] wsS wsTree [44]
    wsMid [1] (by rfl) (by rfl) (by rfl) (by rfl) (by rfl) (by decide)

/-! ## Claim C9: post-hoc synthetic Update proposal -/

/-- C9: when a Commit carrying an update path stages successfully, the
returned queue is the staged queue extended with a synthetic Update
proposal built from the path's leaf key package and the Commit's
sender, so `update_proposals()` yields exactly the Commit's updates
followed by the synthetic one. -/
theorem stageCommit_syntheticUpdate_spec (pre : EnvPre) (post : EnvPost)
    (g : CoreGroup) (pt : MlsPlaintext)
    (ownKeyPackages : List KeyPackageBundle) (s : StartR) (diff : TreeSync)
    (commitSecret : Bytes) (mid : MidR) (t : Bytes) (sd : StagedTreeSyncDiff)
    (kp : KeyPackage)
    (h1 : stageCommitStart pre g pt = .ok s)
    (h2 : s.applyValues.selfRemoved = false)
    (hkp : s.pathKeyPackage = some kp)
    (h3 : pathStep post g pt ownKeyPackages s = .ok (diff, commitSecret))
    (h4 : stageCommitMid post g pt s diff commitSecret = .ok mid)
    (h5 : post.confirmationTag mid.epochSecrets.confirmationKey
      mid.confirmedTranscriptHash = .ok t)
    (h6 : t = s.receivedTag)
    (h7 : post.intoStagedDiff diff = .ok sd) :
    ∃ sc, stageCommit pre post g pt ownKeyPackages = .ok sc
      ∧ sc.stagedProposalQueue.updateProposals =
          s.queue.updateProposals ++ [({ keyPackage := kp }, pt.sender)] := by
  refine ⟨{ stagedProposalQueue :=
              s.queue ++ [fromProposalAndSender
                (.update { keyPackage := kp }) pt.sender]
            state := some
              { groupContext := mid.provisionalGroupContext
                groupEpochSecrets :=
                  (post.splitSecrets mid.epochSecrets
                    mid.serializedProvisionalGroupContext diff.leafCount).1
                messageSecrets :=
                  (post.splitSecrets mid.epochSecrets
                    mid.serializedProvisionalGroupContext diff.leafCount).2
                interimTranscriptHash := mid.interimTranscriptHash
                stagedDiff := sd } }, ?_, ?_⟩
  · unfold stageCommit
    rw [h1]
    simp only [Bind.bind, Except.bind, h2, if_false, Bool.false_eq_true]
    rw [h3]
    simp only [Except.bind]
    rw [h4]
    simp only [Except.bind]
    rw [h5]
    simp only [Except.bind, h6, ne_eq, not_true_eq_false, if_false, hkp]
    rw [h7]
    simp [Bind.bind, Except.bind, Pure.pure, Except.pure]
  · simp [ProposalQueue.updateProposals, List.filterMap_append,
      fromProposalAndSender]

/-- Witness for C9: staging the path-carrying commit `wsPtPath`
succeeds and appends the synthetic Update for `wsKP` from sender 1. -/
theorem stageCommit_syntheticUpdate_spec_witness :
    ∃ sc, stageCommit wsPre wsPost wsGroup wsPtPath [] = .ok sc
      ∧ sc.stagedProposalQueue.updateProposals =
          wsSPath.queue.updateProposals ++
            [({ keyPackage := wsKP }, wsPtPath.sender)] :=
  stageCommit_syntheticUpdate_spec wsPre wsPost wsGroup wsPtPath [] wsSPath
    wsTree [43] wsMid [1] ⟨wsTree⟩ wsKP (by rfl) (by rfl) (by rfl) (by rfl)
    (by rfl) (by rfl) (by rfl) (by rfl)

/-! ## Claim C4: committer argument of update validation -/

/-- The key-collection prefix of `validate_update_proposals` always
succeeds: every index yielded by `full_leaves` denotes an occupied
leaf. -/
theorem collectKeysLoop_ok (t : TreeSync) :
    ∀ (ls : List (Option LeafNode)) (k : Nat) (acc : List Bytes),
      (∀ j, ls.get? j = t.leaves.get? (k + j)) →
      ∃ keys, collectKeysLoop t (fullLeavesFrom k ls) acc = .ok keys := by
  intro ls
  induction ls with
  | nil => exact fun k acc _ => ⟨acc, rfl⟩
  | cons o rest ih =>
    intro k acc hsub
    have hsub' : ∀ j, rest.get? j = t.leaves.get? (k + 1 + j) := by
      intro j
      have h := hsub (j + 1)
      have harith : k + (j + 1) = k + 1 + j := by omega
      simpa [harith] using h
    cases o with
    | none => simpa [fullLeavesFrom] using ih (k + 1) acc hsub'
    | some l =>
      have hk : t.leaves.get? k = some (some l) := by
        have h := hsub 0
        simpa using h.symm
      have hleaf : t.leaf k = .ok (some l) := by
        simp only [TreeSync.leaf, hk]
      simp only [fullLeavesFrom, collectKeysLoop, hleaf]
      exact ih (k + 1) _ hsub'

/-- C4 (intended behaviour): when `validate_update_proposals` is called
with `committer` equal to the leaf index of the first Update proposal's
member sender, it rejects with `CommitterIncludedOwnUpdate` — before
any other per-update check. -/
theorem validateUpdateProposals_committer_spec (g : CoreGroup)
    (q : ProposalQueue) (up : UpdateProposal) (c : Nat)
    (h : q.updateProposals.head? = some (up, Sender.member c)) :
    g.validateUpdateProposals q c = .error .committerIncludedOwnUpdate := by
  obtain ⟨keys, hkeys⟩ :=
    collectKeysLoop_ok g.tree g.tree.leaves 0 [] (fun j => by simp)
  unfold CoreGroup.validateUpdateProposals
  rw [show g.tree.fullLeaves = fullLeavesFrom 0 g.tree.leaves from rfl, hkeys]
  simp only [Bind.bind, Except.bind]
  cases hq : q.updateProposals with
  | nil => rw [hq] at h; simp at h
  | cons hd tl =>
    rw [hq] at h
    simp only [List.head?_cons, Option.some.injEq] at h
    subst h
    simp [validateUpdateLoop]

/-- The queue used by the C4 witness: one Update from member 2. -/
def wsQUpdate : ProposalQueue := [⟨.update ⟨wsKP⟩, .member 2, .proposal⟩]

/-- Witness for C4's supporting theorem: committer 2 committing an
Update from member 2 is rejected. -/
theorem validateUpdateProposals_committer_spec_witness :
    wsGroup.validateUpdateProposals wsQUpdate 2 =
      .error .committerIncludedOwnUpdate :=
  validateUpdateProposals_committer_spec wsGroup wsQUpdate ⟨wsKP⟩ 2 (by rfl)

/-! ## Claim C6: external-commit validation -/

/-- The ValSem243 loop can only succeed or fail with
`InvalidRemoveProposal` / `UnknownMemberRemoval`. -/
theorem checkExternalRemoves_cases (t : TreeSync)
    (pathLeafNode : Option LeafNode) :
    ∀ l : ProposalQueue,
      checkExternalRemoves t pathLeafNode l = .ok ()
      ∨ checkExternalRemoves t pathLeafNode l = .error .invalidRemoveProposal
      ∨ checkExternalRemoves t pathLeafNode l = .error .unknownMemberRemoval := by
  intro l
  induction l with
  | nil => exact Or.inl rfl
  | cons p rest ih =>
    unfold checkExternalRemoves
    split
    · cases hp : p.proposal <;> try exact ih
      case remove r =>
        cases pathLeafNode with
        | none => exact ih
        | some newLeaf =>
          cases hl : t.leaf r.removed with
          | error e => simp [hl]
          | ok o =>
            cases o with
            | none => simp [hl]
            | some removedLeaf =>
              simp only [hl]
              split
              · simp
              · exact ih
    · exact ih

/-- C6: `validate_external_commit` rejects zero ExternalInit proposals
with `NoExternalInitProposals`, more than one with
`MultipleExternalInitProposals`, and (with exactly one) a disallowed
inline proposal type with `InvalidInlineProposals`; with exactly one
ExternalInit and only allowed inline types none of these three errors
is returned. -/
theorem validateExternalCommit_spec (g : CoreGroup) (q : ProposalQueue)
    (pathLeafNode : Option LeafNode) :
    ((q.filteredByKind .externalInit).length = 0 →
      g.validateExternalCommit q pathLeafNode =
        .error .noExternalInitProposals)
    ∧ ((q.filteredByKind .externalInit).length > 1 →
      g.validateExternalCommit q pathLeafNode =
        .error .multipleExternalInitProposals)
    ∧ ((q.filteredByKind .externalInit).length = 1 →
      q.any (fun p => p.proposalOrRefType = ProposalOrRefType.proposal
        && !(allowedInlineType p.proposal)) = true →
      g.validateExternalCommit q pathLeafNode =
        .error .invalidInlineProposals)
    ∧ ((q.filteredByKind .externalInit).length = 1 →
      q.any (fun p => p.proposalOrRefType = ProposalOrRefType.proposal
        && !(allowedInlineType p.proposal)) = false →
      g.validateExternalCommit q pathLeafNode ≠
        .error .noExternalInitProposals
      ∧ g.validateExternalCommit q pathLeafNode ≠
        .error .multipleExternalInitProposals
      ∧ g.validateExternalCommit q pathLeafNode ≠
        .error .invalidInlineProposals) := by
  refine ⟨?_, ?_, ?_, ?_⟩
  · intro h
    simp [CoreGroup.validateExternalCommit, h]
  · intro h
    unfold CoreGroup.validateExternalCommit
    rw [if_neg (by omega), if_pos h]
  · intro h hany
    unfold CoreGroup.validateExternalCommit
    rw [if_neg (by omega), if_neg (by omega), if_pos hany]
  · intro h hany
    unfold CoreGroup.validateExternalCommit
    rw [if_neg (by omega), if_neg (by omega), if_neg (by simp [hany])]
    rcases checkExternalRemoves_cases g.tree pathLeafNode
        (q.filteredByKind .remove) with hc | hc | hc <;> simp [hc]

/-- Witness for C6: an empty proposal queue has no ExternalInit
proposal and is rejected. -/
theorem validateExternalCommit_spec_witness :
    wsGroup.validateExternalCommit [] none =
      .error .noExternalInitProposals :=
  (validateExternalCommit_spec wsGroup [] none).1 (by rfl)

/-! ## Claim C5: add-proposal validation -/

/-- The values of `l` are pairwise distinct and disjoint from the
already-accumulated set `acc` (the invariant of the `HashSet::insert`
loop of `validate_add_proposals`). -/
def uniqueFrom (l acc : List Bytes) : Prop :=
  l.Nodup ∧ ∀ x ∈ l, x ∉ acc

/-- `uniqueFrom` holds of any empty list. -/
theorem uniqueFrom_nil (acc : List Bytes) : uniqueFrom [] acc :=
  ⟨List.nodup_nil, by simp⟩

/-- Pushing the head into the accumulator preserves `uniqueFrom`. -/
theorem uniqueFrom_push {a : Bytes} {l acc : List Bytes}
    (h : uniqueFrom (a :: l) acc) : uniqueFrom l (a :: acc) := by
  obtain ⟨hnd, hdisj⟩ := h
  rw [List.nodup_cons] at hnd
  refine ⟨hnd.2, fun x hx => ?_⟩
  simp only [List.mem_cons, not_or]
  exact ⟨fun hxa => hnd.1 (hxa ▸ hx), hdisj x (List.mem_cons_of_mem _ hx)⟩

/-- Pushing the head into the accumulator preserves the negation of
`uniqueFrom`, provided the head itself is fresh. -/
theorem uniqueFrom_not_push {a : Bytes} {l acc : List Bytes}
    (ha : a ∉ acc) (h : ¬ uniqueFrom (a :: l) acc) :
    ¬ uniqueFrom l (a :: acc) := by
  intro hu
  apply h
  obtain ⟨hnd, hdisj⟩ := hu
  have hal : a ∉ l := by
    intro hmem
    have := hdisj a hmem
    simp at this
  refine ⟨List.nodup_cons.mpr ⟨hal, hnd⟩, fun x hx => ?_⟩
  rcases List.mem_cons.mp hx with rfl | hx'
  · exact ha
  · have := hdisj x hx'
    simp only [List.mem_cons, not_or] at this
    exact this.2

/-- One successful step of the add-proposal batch loop: a key package
whose identity, signature key and init key are fresh and whose
capabilities pass inserts its three values and continues. -/
theorem validateAddLoop_cons_ok (g : CoreGroup) (kp : KeyPackage)
    (rest : List KeyPackage) (ids sigs pks : List Bytes)
    (hid : kp.credential.identity ∉ ids)
    (hsig : kp.credential.signatureKey ∉ sigs)
    (hpk : kp.hpkeInitKey ∉ pks)
    (hcaps : capsOk g kp = true) :
    validateAddLoop g (kp :: rest) ids sigs pks =
      validateAddLoop g rest (kp.credential.identity :: ids)
        (kp.credential.signatureKey :: sigs) (kp.hpkeInitKey :: pks) := by
  unfold capsOk at hcaps
  simp only [Bool.and_eq_true, decide_eq_true_eq] at hcaps
  obtain ⟨⟨⟨h1, h2⟩, h3, h4⟩, h5⟩ := hcaps
  simp only [validateAddLoop]
  rw [if_neg hid, if_neg hsig, if_neg hpk,
    if_neg (by push_neg; exact ⟨h1, h2⟩),
    if_neg (not_not_intro ⟨h3, h4⟩)]
  cases hfind : g.groupContext.extensions.find?
      (fun e => e.extensionType = ExtensionType.requiredCapabilities) with
  | none => rfl
  | some ext =>
      rw [hfind] at h5
      cases ext with
      | requiredCapabilities rc =>
          simp only []
          rw [if_pos h5]
      | other t => simp at h5

/-- The batch loop succeeds on capability-passing, collision-free Adds
and returns exactly the accumulated value sets. -/
theorem validateAddLoop_ok (g : CoreGroup) :
    ∀ (adds : List KeyPackage) (ids sigs pks : List Bytes),
      (∀ kp ∈ adds, capsOk g kp = true) →
      uniqueFrom (adds.map fun kp => kp.credential.identity) ids →
      uniqueFrom (adds.map fun kp => kp.credential.signatureKey) sigs →
      uniqueFrom (adds.map fun kp => kp.hpkeInitKey) pks →
      validateAddLoop g adds ids sigs pks =
        .ok ((adds.map fun kp => kp.credential.identity).reverse ++ ids,
          (adds.map fun kp => kp.credential.signatureKey).reverse ++ sigs,
          (adds.map fun kp => kp.hpkeInitKey).reverse ++ pks) := by
  intro adds
  induction adds with
  | nil => intro ids sigs pks _ _ _ _; simp [validateAddLoop]
  | cons kp rest ih =>
    intro ids sigs pks hcaps hids hsigs hpks
    simp only [List.map_cons] at hids hsigs hpks
    have hid : kp.credential.identity ∉ ids := hids.2 _ (by simp)
    have hsig : kp.credential.signatureKey ∉ sigs := hsigs.2 _ (by simp)
    have hpk : kp.hpkeInitKey ∉ pks := hpks.2 _ (by simp)
    rw [validateAddLoop_cons_ok g kp rest ids sigs pks hid hsig hpk
      (hcaps kp (by simp))]
    rw [ih _ _ _ (fun kp' h => hcaps kp' (by simp [h]))
      (uniqueFrom_push hids) (uniqueFrom_push hsigs) (uniqueFrom_push hpks)]
    simp [List.reverse_cons, List.append_assoc]

/-- The batch loop rejects a duplicated identity with
`DuplicateIdentityAddProposal` when the signature keys and init keys
are collision-free and the capabilities pass. -/
theorem validateAddLoop_dupId (g : CoreGroup) :
    ∀ (adds : List KeyPackage) (ids sigs pks : List Bytes),
      (∀ kp ∈ adds, capsOk g kp = true) →
      ¬ uniqueFrom (adds.map fun kp => kp.credential.identity) ids →
      uniqueFrom (adds.map fun kp => kp.credential.signatureKey) sigs →
      uniqueFrom (adds.map fun kp => kp.hpkeInitKey) pks →
      validateAddLoop g adds ids sigs pks =
        .error .duplicateIdentityAddProposal := by
  intro adds
  induction adds with
  | nil =>
    intro ids sigs pks _ hids _ _
    exact absurd (uniqueFrom_nil ids) (by simpa using hids)
  | cons kp rest ih =>
    intro ids sigs pks hcaps hids hsigs hpks
    simp only [List.map_cons] at hids hsigs hpks
    by_cases hid : kp.credential.identity ∈ ids
    · simp only [validateAddLoop]
      rw [if_pos hid]
    · have hsig : kp.credential.signatureKey ∉ sigs := hsigs.2 _ (by simp)
      have hpk : kp.hpkeInitKey ∉ pks := hpks.2 _ (by simp)
      rw [validateAddLoop_cons_ok g kp rest ids sigs pks hid hsig hpk
        (hcaps kp (by simp))]
      exact ih _ _ _ (fun kp' h => hcaps kp' (by simp [h]))
        (uniqueFrom_not_push hid hids)
        (uniqueFrom_push hsigs) (uniqueFrom_push hpks)

/-- The batch loop rejects a duplicated signature key with
`DuplicateSignatureKeyAddProposal` when the identities and init keys
are collision-free and the capabilities pass. -/
theorem validateAddLoop_dupSig (g : CoreGroup) :
    ∀ (adds : List KeyPackage) (ids sigs pks : List Bytes),
      (∀ kp ∈ adds, capsOk g kp = true) →
      uniqueFrom (adds.map fun kp => kp.credential.identity) ids →
      ¬ uniqueFrom (adds.map fun kp => kp.credential.signatureKey) sigs →
      uniqueFrom (adds.map fun kp => kp.hpkeInitKey) pks →
      validateAddLoop g adds ids sigs pks =
        .error .duplicateSignatureKeyAddProposal := by
  intro adds
  induction adds with
  | nil =>
    intro ids sigs pks _ _ hsigs _
    exact absurd (uniqueFrom_nil sigs) (by simpa using hsigs)
  | cons kp rest ih =>
    intro ids sigs pks hcaps hids hsigs hpks
    simp only [List.map_cons] at hids hsigs hpks
    have hid : kp.credential.identity ∉ ids := hids.2 _ (by simp)
    by_cases hsig : kp.credential.signatureKey ∈ sigs
    · simp only [validateAddLoop]
      rw [if_neg hid, if_pos hsig]
    · have hpk : kp.hpkeInitKey ∉ pks := hpks.2 _ (by simp)
      rw [validateAddLoop_cons_ok g kp rest ids sigs pks hid hsig hpk
        (hcaps kp (by simp))]
      exact ih _ _ _ (fun kp' h => hcaps kp' (by simp [h]))
        (uniqueFrom_push hids)
        (uniqueFrom_not_push hsig hsigs) (uniqueFrom_push hpks)

/-- The batch loop rejects a duplicated HPKE init key with
`DuplicatePublicKeyAddProposal` when the identities and signature keys
are collision-free and the capabilities pass. -/
theorem validateAddLoop_dupPk (g : CoreGroup) :
    ∀ (adds : List KeyPackage) (ids sigs pks : List Bytes),
      (∀ kp ∈ adds, capsOk g kp = true) →
      uniqueFrom (adds.map fun kp => kp.credential.identity) ids →
      uniqueFrom (adds.map fun kp => kp.credential.signatureKey) sigs →
      ¬ uniqueFrom (adds.map fun kp => kp.hpkeInitKey) pks →
      validateAddLoop g adds ids sigs pks =
        .error .duplicatePublicKeyAddProposal := by
  intro adds
  induction adds with
  | nil =>
    intro ids sigs pks _ _ _ hpks
    exact absurd (uniqueFrom_nil pks) (by simpa using hpks)
  | cons kp rest ih =>
    intro ids sigs pks hcaps hids hsigs hpks
    simp only [List.map_cons] at hids hsigs hpks
    have hid : kp.credential.identity ∉ ids := hids.2 _ (by simp)
    have hsig : kp.credential.signatureKey ∉ sigs := hsigs.2 _ (by simp)
    by_cases hpk : kp.hpkeInitKey ∈ pks
    · simp only [validateAddLoop]
      rw [if_neg hid, if_neg hsig, if_pos hpk]
    · rw [validateAddLoop_cons_ok g kp rest ids sigs pks hid hsig hpk
        (hcaps kp (by simp))]
      exact ih _ _ _ (fun kp' h => hcaps kp' (by simp [h]))
        (uniqueFrom_push hids) (uniqueFrom_push hsigs)
        (uniqueFrom_not_push hpk hpks)

/-- Shifting the window of leaf slots by one preserves the positional
correspondence with the full leaf list. -/
theorem leavesSub_shift (t : TreeSync) (o : Option LeafNode)
    (rest : List (Option LeafNode)) (k : Nat)
    (hsub : ∀ j, (o :: rest).get? j = t.leaves.get? (k + j)) :
    ∀ j, rest.get? j = t.leaves.get? (k + 1 + j) := by
  intro j
  have h := hsub (j + 1)
  have harith : k + (j + 1) = k + 1 + j := by omega
  simpa [harith] using h

/-- The head of a positionally-corresponding window of leaf slots is
what `TreeSync::leaf` returns at the window's base index. -/
theorem treeLeaf_of_sub (t : TreeSync) (l : LeafNode)
    (rest : List (Option LeafNode)) (k : Nat)
    (hsub : ∀ j, (some l :: rest).get? j = t.leaves.get? (k + j)) :
    t.leaf k = .ok (some l) := by
  have hk : t.leaves.get? k = some (some l) := by
    have h := hsub 0
    simpa using h.symm
  simp only [TreeSync.leaf, hk]

/-- The member-scan loop succeeds when no occupied leaf collides with
any of the three value sets. -/
theorem checkMembersLoop_ok (t : TreeSync) :
    ∀ (ls : List (Option LeafNode)) (k : Nat) (ids sigs pks : List Bytes),
      (∀ j, ls.get? j = t.leaves.get? (k + j)) →
      (∀ l : LeafNode, some l ∈ ls → l.credential.identity ∉ ids
        ∧ l.credential.signatureKey ∉ sigs ∧ l.encryptionKey ∉ pks) →
      checkMembersLoop t (membersFrom k ls) ids sigs pks = .ok () := by
  intro ls
  induction ls with
  | nil => intro k ids sigs pks _ _; rfl
  | cons o rest ih =>
    intro k ids sigs pks hsub hall
    cases o with
    | none =>
        simp only [membersFrom]
        exact ih (k + 1) ids sigs pks (leavesSub_shift t none rest k hsub)
          (fun l hl => hall l (List.mem_cons_of_mem _ hl))
    | some l =>
        have hl := hall l (by simp)
        simp only [membersFrom, checkMembersLoop, mkMember]
        rw [if_neg hl.1, if_neg hl.2.1,
          treeLeaf_of_sub t l rest k hsub]
        simp only [LeafNode.publicKey]
        rw [if_neg hl.2.2]
        exact ih (k + 1) ids sigs pks (leavesSub_shift t (some l) rest k hsub)
          (fun l' hl' => hall l' (List.mem_cons_of_mem _ hl'))

/-- The member scan rejects with `ExistingIdentityAddProposal` when
some occupied leaf's identity is in the batch identities and no
occupied leaf collides on signature key or init key. -/
theorem checkMembersLoop_existingId (t : TreeSync) :
    ∀ (ls : List (Option LeafNode)) (k : Nat) (ids sigs pks : List Bytes),
      (∀ j, ls.get? j = t.leaves.get? (k + j)) →
      (∀ l : LeafNode, some l ∈ ls → l.credential.signatureKey ∉ sigs) →
      (∀ l : LeafNode, some l ∈ ls → l.encryptionKey ∉ pks) →
      (∃ l : LeafNode, some l ∈ ls ∧ l.credential.identity ∈ ids) →
      checkMembersLoop t (membersFrom k ls) ids sigs pks =
        .error .existingIdentityAddProposal := by
  intro ls
  induction ls with
  | nil =>
    intro k ids sigs pks _ _ _ hex
    obtain ⟨l, hl, _⟩ := hex
    simp at hl
  | cons o rest ih =>
    intro k ids sigs pks hsub hsigs hpks hex
    cases o with
    | none =>
        simp only [membersFrom]
        refine ih (k + 1) ids sigs pks (leavesSub_shift t none rest k hsub)
          (fun l hl => hsigs l (List.mem_cons_of_mem _ hl))
          (fun l hl => hpks l (List.mem_cons_of_mem _ hl)) ?_
        obtain ⟨l, hl, hmem⟩ := hex
        rcases List.mem_cons.mp hl with heq | htail
        · exact absurd heq (by simp)
        · exact ⟨l, htail, hmem⟩
    | some l0 =>
        by_cases hid : l0.credential.identity ∈ ids
        · simp only [membersFrom, checkMembersLoop, mkMember]
          rw [if_pos hid]
        · simp only [membersFrom, checkMembersLoop, mkMember]
          rw [if_neg hid, if_neg (hsigs l0 (by simp)),
            treeLeaf_of_sub t l0 rest k hsub]
          simp only [LeafNode.publicKey]
          rw [if_neg (hpks l0 (by simp))]
          refine ih (k + 1) ids sigs pks
            (leavesSub_shift t (some l0) rest k hsub)
            (fun l hl => hsigs l (List.mem_cons_of_mem _ hl))
            (fun l hl => hpks l (List.mem_cons_of_mem _ hl)) ?_
          obtain ⟨l, hl, hmem⟩ := hex
          rcases List.mem_cons.mp hl with heq | htail
          · exact absurd hmem (by
              have : l = l0 := by injection heq
              rw [this]; exact hid)
          · exact ⟨l, htail, hmem⟩

/-- The member scan rejects with `ExistingSignatureKeyAddProposal` when
some occupied leaf's signature key is in the batch signature keys and
no occupied leaf collides on identity or init key. -/
theorem checkMembersLoop_existingSig (t : TreeSync) :
    ∀ (ls : List (Option LeafNode)) (k : Nat) (ids sigs pks : List Bytes),
      (∀ j, ls.get? j = t.leaves.get? (k + j)) →
      (∀ l : LeafNode, some l ∈ ls → l.credential.identity ∉ ids) →
      (∀ l : LeafNode, some l ∈ ls → l.encryptionKey ∉ pks) →
      (∃ l : LeafNode, some l ∈ ls ∧ l.credential.signatureKey ∈ sigs) →
      checkMembersLoop t (membersFrom k ls) ids sigs pks =
        .error .existingSignatureKeyAddProposal := by
  intro ls
  induction ls with
  | nil =>
    intro k ids sigs pks _ _ _ hex
    obtain ⟨l, hl, _⟩ := hex
    simp at hl
  | cons o rest ih =>
    intro k ids sigs pks hsub hids hpks hex
    cases o with
    | none =>
        simp only [membersFrom]
        refine ih (k + 1) ids sigs pks (leavesSub_shift t none rest k hsub)
          (fun l hl => hids l (List.mem_cons_of_mem _ hl))
          (fun l hl => hpks l (List.mem_cons_of_mem _ hl)) ?_
        obtain ⟨l, hl, hmem⟩ := hex
        rcases List.mem_cons.mp hl with heq | htail
        · exact absurd heq (by simp)
        · exact ⟨l, htail, hmem⟩
    | some l0 =>
        by_cases hsig : l0.credential.signatureKey ∈ sigs
        · simp only [membersFrom, checkMembersLoop, mkMember]
          rw [if_neg (hids l0 (by simp)), if_pos hsig]
        · simp only [membersFrom, checkMembersLoop, mkMember]
          rw [if_neg (hids l0 (by simp)), if_neg hsig,
            treeLeaf_of_sub t l0 rest k hsub]
          simp only [LeafNode.publicKey]
          rw [if_neg (hpks l0 (by simp))]
          refine ih (k + 1) ids sigs pks
            (leavesSub_shift t (some l0) rest k hsub)
            (fun l hl => hids l (List.mem_cons_of_mem _ hl))
            (fun l hl => hpks l (List.mem_cons_of_mem _ hl)) ?_
          obtain ⟨l, hl, hmem⟩ := hex
          rcases List.mem_cons.mp hl with heq | htail
          · exact absurd hmem (by
              have : l = l0 := by injection heq
              rw [this]; exact hsig)
          · exact ⟨l, htail, hmem⟩

/-- The member scan rejects with `ExistingPublicKeyAddProposal` when
some occupied leaf's encryption key is in the batch init keys and no
occupied leaf collides on identity or signature key. -/
theorem checkMembersLoop_existingPk (t : TreeSync) :
    ∀ (ls : List (Option LeafNode)) (k : Nat) (ids sigs pks : List Bytes),
      (∀ j, ls.get? j = t.leaves.get? (k + j)) →
      (∀ l : LeafNode, some l ∈ ls → l.credential.identity ∉ ids) →
      (∀ l : LeafNode, some l ∈ ls → l.credential.signatureKey ∉ sigs) →
      (∃ l : LeafNode, some l ∈ ls ∧ l.encryptionKey ∈ pks) →
      checkMembersLoop t (membersFrom k ls) ids sigs pks =
        .error .existingPublicKeyAddProposal := by
  intro ls
  induction ls with
  | nil =>
    intro k ids sigs pks _ _ _ hex
    obtain ⟨l, hl, _⟩ := hex
    simp at hl
  | cons o rest ih =>
    intro k ids sigs pks hsub hids hsigs hex
    cases o with
    | none =>
        simp only [membersFrom]
        refine ih (k + 1) ids sigs pks (leavesSub_shift t none rest k hsub)
          (fun l hl => hids l (List.mem_cons_of_mem _ hl))
          (fun l hl => hsigs l (List.mem_cons_of_mem _ hl)) ?_
        obtain ⟨l, hl, hmem⟩ := hex
        rcases List.mem_cons.mp hl with heq | htail
        · exact absurd heq (by simp)
        · exact ⟨l, htail, hmem⟩
    | some l0 =>
        by_cases hpk : l0.encryptionKey ∈ pks
        · simp only [membersFrom, checkMembersLoop, mkMember]
          rw [if_neg (hids l0 (by simp)), if_neg (hsigs l0 (by simp)),
            treeLeaf_of_sub t l0 rest k hsub]
          simp only [LeafNode.publicKey]
          rw [if_pos hpk]
        · simp only [membersFrom, checkMembersLoop, mkMember]
          rw [if_neg (hids l0 (by simp)), if_neg (hsigs l0 (by simp)),
            treeLeaf_of_sub t l0 rest k hsub]
          simp only [LeafNode.publicKey]
          rw [if_neg hpk]
          refine ih (k + 1) ids sigs pks
            (leavesSub_shift t (some l0) rest k hsub)
            (fun l hl => hids l (List.mem_cons_of_mem _ hl))
            (fun l hl => hsigs l (List.mem_cons_of_mem _ hl)) ?_
          obtain ⟨l, hl, hmem⟩ := hex
          rcases List.mem_cons.mp hl with heq | htail
          · exact absurd hmem (by
              have : l = l0 := by injection heq
              rw [this]; exact hpk)
          · exact ⟨l, htail, hmem⟩

/-- C5: `validate_add_proposals` rejects within-batch collisions of
identity / signature key / HPKE init key with the respective
`Duplicate…AddProposal` error, rejects collisions of those values with
a currently occupied leaf with the respective `Existing…AddProposal`
error, and — absent all such collisions (the capability checks passing
throughout) — returns `Ok`.  Each clause isolates its collision kind by
assuming the other kinds absent, since the source reports the first
collision encountered in scan order. -/
theorem validateAddProposals_spec (g : CoreGroup) (q : ProposalQueue)
    (hcaps : ∀ kp ∈ q.addKeyPackages, capsOk g kp = true) :
    ((q.addKeyPackages.map fun kp => kp.credential.signatureKey).Nodup →
      (q.addKeyPackages.map fun kp => kp.hpkeInitKey).Nodup →
      ¬ (q.addKeyPackages.map fun kp => kp.credential.identity).Nodup →
      g.validateAddProposals q = .error .duplicateIdentityAddProposal)
    ∧ ((q.addKeyPackages.map fun kp => kp.credential.identity).Nodup →
      (q.addKeyPackages.map fun kp => kp.hpkeInitKey).Nodup →
      ¬ (q.addKeyPackages.map fun kp => kp.credential.signatureKey).Nodup →
      g.validateAddProposals q = .error .duplicateSignatureKeyAddProposal)
    ∧ ((q.addKeyPackages.map fun kp => kp.credential.identity).Nodup →
      (q.addKeyPackages.map fun kp => kp.credential.signatureKey).Nodup →
      ¬ (q.addKeyPackages.map fun kp => kp.hpkeInitKey).Nodup →
      g.validateAddProposals q = .error .duplicatePublicKeyAddProposal)
    ∧ ((q.addKeyPackages.map fun kp => kp.credential.identity).Nodup →
      (q.addKeyPackages.map fun kp => kp.credential.signatureKey).Nodup →
      (q.addKeyPackages.map fun kp => kp.hpkeInitKey).Nodup →
      (∀ l : LeafNode, some l ∈ g.tree.leaves →
        l.credential.signatureKey ∉
          q.addKeyPackages.map fun kp => kp.credential.signatureKey) →
      (∀ l : LeafNode, some l ∈ g.tree.leaves →
        l.encryptionKey ∉ q.addKeyPackages.map fun kp => kp.hpkeInitKey) →
      (∃ l : LeafNode, some l ∈ g.tree.leaves ∧
        l.credential.identity ∈
          q.addKeyPackages.map fun kp => kp.credential.identity) →
      g.validateAddProposals q = .error .existingIdentityAddProposal)
    ∧ ((q.addKeyPackages.map fun kp => kp.credential.identity).Nodup →
      (q.addKeyPackages.map fun kp => kp.credential.signatureKey).Nodup →
      (q.addKeyPackages.map fun kp => kp.hpkeInitKey).Nodup →
      (∀ l : LeafNode, some l ∈ g.tree.leaves →
        l.credential.identity ∉
          q.addKeyPackages.map fun kp => kp.credential.identity) →
      (∀ l : LeafNode, some l ∈ g.tree.leaves →
        l.encryptionKey ∉ q.addKeyPackages.map fun kp => kp.hpkeInitKey) →
      (∃ l : LeafNode, some l ∈ g.tree.leaves ∧
        l.credential.signatureKey ∈
          q.addKeyPackages.map fun kp => kp.credential.signatureKey) →
      g.validateAddProposals q = .error .existingSignatureKeyAddProposal)
    ∧ ((q.addKeyPackages.map fun kp => kp.credential.identity).Nodup →
      (q.addKeyPackages.map fun kp => kp.credential.signatureKey).Nodup →
      (q.addKeyPackages.map fun kp => kp.hpkeInitKey).Nodup →
      (∀ l : LeafNode, some l ∈ g.tree.leaves →
        l.credential.identity ∉
          q.addKeyPackages.map fun kp => kp.credential.identity) →
      (∀ l : LeafNode, some l ∈ g.tree.leaves →
        l.credential.signatureKey ∉
          q.addKeyPackages.map fun kp => kp.credential.signatureKey) →
      (∃ l : LeafNode, some l ∈ g.tree.leaves ∧
        l.encryptionKey ∈ q.addKeyPackages.map fun kp => kp.hpkeInitKey) →
      g.validateAddProposals q = .error .existingPublicKeyAddProposal)
    ∧ ((q.addKeyPackages.map fun kp => kp.credential.identity).Nodup →
      (q.addKeyPackages.map fun kp => kp.credential.signatureKey).Nodup →
      (q.addKeyPackages.map fun kp => kp.hpkeInitKey).Nodup →
      (∀ l : LeafNode, some l ∈ g.tree.leaves →
        l.credential.identity ∉
          q.addKeyPackages.map fun kp => kp.credential.identity) →
      (∀ l : LeafNode, some l ∈ g.tree.leaves →
        l.credential.signatureKey ∉
          q.addKeyPackages.map fun kp => kp.credential.signatureKey) →
      (∀ l : LeafNode, some l ∈ g.tree.leaves →
        l.encryptionKey ∉ q.addKeyPackages.map fun kp => kp.hpkeInitKey) →
      g.validateAddProposals q = .ok ()) := by
  refine ⟨?_, ?_, ?_, ?_, ?_, ?_, ?_⟩
  · intro hs hp hi
    unfold CoreGroup.validateAddProposals
    rw [validateAddLoop_dupId g q.addKeyPackages [] [] [] hcaps
      (fun hu => hi hu.1) ⟨hs, by simp⟩ ⟨hp, by simp⟩]
    rfl
  · intro hi hp hs
    unfold CoreGroup.validateAddProposals
    rw [validateAddLoop_dupSig g q.addKeyPackages [] [] [] hcaps
      ⟨hi, by simp⟩ (fun hu => hs hu.1) ⟨hp, by simp⟩]
    rfl
  · intro hi hs hp
    unfold CoreGroup.validateAddProposals
    rw [validateAddLoop_dupPk g q.addKeyPackages [] [] [] hcaps
      ⟨hi, by simp⟩ ⟨hs, by simp⟩ (fun hu => hp hu.1)]
    rfl
  · intro hi hs hp hTsig hTpk hTid
    unfold CoreGroup.validateAddProposals
    rw [validateAddLoop_ok g q.addKeyPackages [] [] [] hcaps
      ⟨hi, by simp⟩ ⟨hs, by simp⟩ ⟨hp, by simp⟩]
    simp only [Bind.bind, Except.bind]
    refine checkMembersLoop_existingId g.tree g.tree.leaves 0 _ _ _
      (fun j => by simp) (fun l hl => by simpa using hTsig l hl)
      (fun l hl => by simpa using hTpk l hl) ?_
    obtain ⟨l, hl, hm⟩ := hTid
    exact ⟨l, hl, by simpa using hm⟩
  · intro hi hs hp hTid hTpk hTsig
    unfold CoreGroup.validateAddProposals
    rw [validateAddLoop_ok g q.addKeyPackages [] [] [] hcaps
      ⟨hi, by simp⟩ ⟨hs, by simp⟩ ⟨hp, by simp⟩]
    simp only [Bind.bind, Except.bind]
    refine checkMembersLoop_existingSig g.tree g.tree.leaves 0 _ _ _
      (fun j => by simp) (fun l hl => by simpa using hTid l hl)
      (fun l hl => by simpa using hTpk l hl) ?_
    obtain ⟨l, hl, hm⟩ := hTsig
    exact ⟨l, hl, by simpa using hm⟩
  · intro hi hs hp hTid hTsig hTpk
    unfold CoreGroup.validateAddProposals
    rw [validateAddLoop_ok g q.addKeyPackages [] [] [] hcaps
      ⟨hi, by simp⟩ ⟨hs, by simp⟩ ⟨hp, by simp⟩]
    simp only [Bind.bind, Except.bind]
    refine checkMembersLoop_existingPk g.tree g.tree.leaves 0 _ _ _
      (fun j => by simp) (fun l hl => by simpa using hTid l hl)
      (fun l hl => by simpa using hTsig l hl) ?_
    obtain ⟨l, hl, hm⟩ := hTpk
    exact ⟨l, hl, by simpa using hm⟩
  · intro hi hs hp hTid hTsig hTpk
    unfold CoreGroup.validateAddProposals
    rw [validateAddLoop_ok g q.addKeyPackages [] [] [] hcaps
      ⟨hi, by simp⟩ ⟨hs, by simp⟩ ⟨hp, by simp⟩]
    simp only [Bind.bind, Except.bind]
    exact checkMembersLoop_ok g.tree g.tree.leaves 0 _ _ _
      (fun j => by simp)
      (fun l hl => ⟨by simpa using hTid l hl, by simpa using hTsig l hl,
        by simpa using hTpk l hl⟩)

/-- First Add of the C5 witness (identity `[70]`). -/
def wsAddKP1 : KeyPackage := ⟨⟨[70], [71]⟩, [72], 7, 8, ⟨[8], [7], [], [], []⟩⟩

/-- Second Add of the C5 witness (same identity `[70]`, fresh keys). -/
def wsAddKP2 : KeyPackage := ⟨⟨[70], [73]⟩, [74], 7, 8, ⟨[8], [7], [], [], []⟩⟩

/-- A batch with two Adds sharing an identity. -/
def wsQAdds : ProposalQueue :=
  [⟨.add ⟨wsAddKP1⟩, .member 0, .proposal⟩,
   ⟨.add ⟨wsAddKP2⟩, .member 0, .proposal⟩]

/-- Witness for C5: the duplicated identity `[70]` is rejected with
`DuplicateIdentityAddProposal`. -/
theorem validateAddProposals_spec_witness :
    wsGroup.validateAddProposals wsQAdds =
      .error .duplicateIdentityAddProposal :=
  (validateAddProposals_spec wsGroup wsQAdds (by decide)).1
    (by decide) (by decide) (by decide)
